import Mathlib

/-!
Named-pipe provider (`src/src/fs_pipe.c`)

A shallow embedding of the pipe registry, the create/connect handshake, the
read/write/transact data protocol and the close path.

Modelling conventions

* Pointers are heap addresses (`Nat`); `OFC_NULL` is `none`.  A heap is a list
  of cells, the address being the position; `ofc_malloc` appends a cell and
  `ofc_free` empties it, so reading through a dangling pointer is visible as
  `Step.fault`.
* The handle service (`ofc/handle.h`) is outside the repository: the handle of a
  half is the address of the half, and `ofc_handle_lock` answers the half while
  it has not been closed.
* The wait queue behind `hWaitQ` (`ofc/waitq.h`) is the list of its records,
  front first.
* Every call is one atomic step under `pipes.lock`.  A call that reaches
  `ofc_waitq_block` yields `Step.block`; the caller re-evaluates the loop
  condition after a wake by taking the step again.
* `OFC_DWORD`, `OFC_UINT` and `OFC_INT` come from `ofc/types.h`, outside the
  repository; lengths and offsets are natural numbers (payloads are taken to
  fit the signed `nBytes`).
* `ofc_thread_set_variable (OfcLastError, e)` is recorded in the `lastError`
  field of the result of the call.
* `OfcFSPipeShutdown` tests `hPipe` of halves that a Close has freed; there,
  and only there, a freed half reads as what Close stored in it before the
  free (`hPipe` null), see `shutdownClose`.
-/

namespace OfcFsPipe

/-! ## Data model -/

/-- One buffered write: `len` is the number of unread bytes, `offset` the
consumption cursor into `buffer`. -/
structure OFC_FS_PIPE_DATA where
  len : Nat
  offset : Nat
  buffer : List Nat
deriving DecidableEq, Repr

/-- A registry entry. -/
structure OFC_FS_PIPE_FILE where
  next : Option Nat
  name : List Nat
  server : Option Nat
  client : Option Nat
deriving DecidableEq, Repr

/-- One side of a pipe. -/
structure OFC_FS_PIPE_HALF where
  hPipe : Option Nat
  hWaitQ : List OFC_FS_PIPE_DATA
  pipe_file : Option Nat
  sibling : Option Nat
deriving DecidableEq, Repr

/-- The global `pipes` (the lock is the atomicity of a step). -/
structure OFC_PIPES where
  first : Option Nat
  last : Option Nat
deriving DecidableEq, Repr

/-- Values stored in `OfcLastError`. -/
inductive OFC_ERROR where
  | NOT_ENOUGH_MEMORY
  | FILE_NOT_FOUND
  | BROKEN_PIPE
  | CALL_NOT_IMPLEMENTED
  | OPLOCK_NOT_GRANTED
deriving DecidableEq, Repr

/-- Creation dispositions of `ofc/file.h`. -/
inductive OFC_CREATE_DISPOSITION where
  | OFC_CREATE_NEW
  | OFC_CREATE_ALWAYS
  | OFC_OPEN_EXISTING
  | OFC_OPEN_ALWAYS
  | OFC_TRUNCATE_EXISTING
deriving DecidableEq, Repr

/-- The whole pipe state: the two heaps and the registry head. -/
structure State where
  files : List (Option OFC_FS_PIPE_FILE)
  halves : List (Option OFC_FS_PIPE_HALF)
  pipes : OFC_PIPES
deriving DecidableEq, Repr

/-- Outcome of one step of a call. -/
inductive Step (ρ : Type) where
  | ret (st : State) (r : ρ)
  | block (st : State)
  | fault
deriving DecidableEq, Repr

/-! ## Heap primitives -/

/-- Read through a pointer: `none` when the cell was never allocated or was freed. -/
def deref {α : Type} (heap : List (Option α)) (p : Nat) : Option α :=
  match heap[p]? with
  | some (some v) => some v
  | _ => none

/-- Write through a pointer. -/
def store {α : Type} (heap : List (Option α)) (p : Nat) (v : α) : List (Option α) :=
  heap.set p (some v)

/-- `ofc_free`. -/
def ofc_free {α : Type} (heap : List (Option α)) (p : Nat) : List (Option α) :=
  heap.set p none

/-- `ofc_malloc` followed by the initialisation of the cell; the new address is
the old length of the heap. -/
def ofc_malloc {α : Type} (heap : List (Option α)) (v : α) : List (Option α) :=
  heap ++ [some v]

/-- `ofc_handle_lock`: the half behind a handle, `none` for a handle that is
not (or no longer) valid. -/
def ofc_handle_lock (st : State) (hFile : Nat) : Option OFC_FS_PIPE_HALF :=
  deref st.halves hFile

/-- Replace the wait queue of the half at `h`. -/
def setQueue (st : State) (h : Nat) (half : OFC_FS_PIPE_HALF)
    (q : List OFC_FS_PIPE_DATA) : State :=
  { st with halves := store st.halves h { half with hWaitQ := q } }

/-! ## Write and Read -/

/-- Result of `OfcFSPipeWriteFile`: return value, `*lpNumberOfBytesWritten`,
last error set by the call. -/
structure WriteResult where
  ret : Bool
  written : Option Nat
  lastError : Option OFC_ERROR
deriving DecidableEq, Repr

/-- `OfcFSPipeWriteFile` (fs_pipe.c 253-295); `lpBuffer` is the payload, its
length is `nNumberOfBytesToWrite`. -/
def OfcFSPipeWriteFile (st : State) (hFile : Nat) (lpBuffer : List Nat) :
    Step WriteResult :=
  match ofc_handle_lock st hFile with
  | none => .ret st { ret := false, written := none, lastError := none }
  | some half =>
    match half.sibling with
    | some sibling =>
      match deref st.halves sibling with
      | none => .fault
      | some peer =>
        let data : OFC_FS_PIPE_DATA :=
          { len := lpBuffer.length, offset := 0, buffer := lpBuffer }
        .ret (setQueue st sibling peer (peer.hWaitQ ++ [data]))
          { ret := true, written := some lpBuffer.length, lastError := none }
    | none =>
      .ret st { ret := false, written := none,
                lastError := some OFC_ERROR.BROKEN_PIPE }

/-- Result of `OfcFSPipeReadFile` and of `OfcFSPipeTransactNamedPipe`: return
value, the count stored through the out-parameter, the bytes copied into the
caller's buffer, last error set by the call. -/
structure ReadResult where
  ret : Bool
  nRead : Option Nat
  bytes : List Nat
  lastError : Option OFC_ERROR
deriving DecidableEq, Repr

/-- `OfcFSPipeReadFile` (fs_pipe.c 297-348). -/
def OfcFSPipeReadFile (st : State) (hFile : Nat) (nNumberOfBytesToRead : Nat) :
    Step ReadResult :=
  match ofc_handle_lock st hFile with
  | none => .ret st { ret := false, nRead := none, bytes := [], lastError := none }
  | some half =>
    match half.hWaitQ with
    | [] =>
      if half.sibling ≠ none then .block st
      else .ret st { ret := false, nRead := none, bytes := [],
                     lastError := some OFC_ERROR.BROKEN_PIPE }
    | data :: rest =>
      let nBytes := min nNumberOfBytesToRead data.len
      let bytes := (data.buffer.drop data.offset).take nBytes
      let data1 : OFC_FS_PIPE_DATA :=
        { data with len := data.len - nBytes, offset := data.offset + nBytes }
      let q := if data1.len = 0 then rest else data1 :: rest
      .ret (setQueue st hFile half q)
        { ret := true, nRead := some nBytes, bytes := bytes, lastError := none }

/-! ## Registry list -/

/-- `OfcFSPipeStartup` (fs_pipe.c 802-809): the empty registry. -/
def OfcFSPipeStartup : State :=
  { files := [], halves := [], pipes := { first := none, last := none } }

/-- The search loop of `pipe_unlink_internal` (fs_pipe.c 78-88), started with
`prev` and `curr`; answers `(found, prev)`.  `none`: the walk reads through a
dangling pointer or does not end within the fuel. -/
def unlinkScan (files : List (Option OFC_FS_PIPE_FILE)) (pipe_file : Nat) :
    Nat → Option Nat → Option Nat → Option (Bool × Option Nat)
  | 0, _, _ => none
  | _ + 1, prev, none => some (false, prev)
  | fuel + 1, prev, some curr =>
    if curr = pipe_file then some (true, prev)
    else
      match deref files curr with
      | none => none
      | some f => unlinkScan files pipe_file fuel (some curr) f.next

/-- `pipe_unlink_internal` (fs_pipe.c 69-101). -/
def pipe_unlink_internal (st : State) (pipe_file : Nat) : Option State :=
  match unlinkScan st.files pipe_file (st.files.length + 1) none st.pipes.first with
  | none => none
  | some (false, _) => some st
  | some (true, prev) =>
    match deref st.files pipe_file with
    | none => none
    | some pf =>
      let st1 : Option State :=
        match prev with
        | none => some { st with pipes := { st.pipes with first := pf.next } }
        | some p =>
          match deref st.files p with
          | none => none
          | some pv => some { st with files := store st.files p { pv with next := pf.next } }
      match st1 with
      | none => none
      | some st1 =>
        if pf.next = none then some { st1 with pipes := { st1.pipes with last := none } }
        else some st1

/-- `pipe_enqueue_internal` (fs_pipe.c 103-118). -/
def pipe_enqueue_internal (st : State) (pipe_file : Nat) : Option State :=
  match deref st.files pipe_file with
  | none => none
  | some pf =>
    let st1 : State := { st with files := store st.files pipe_file { pf with next := none } }
    match st1.pipes.last with
    | none =>
      some { st1 with pipes := { first := some pipe_file, last := some pipe_file } }
    | some prev =>
      match deref st1.files prev with
      | none => none
      | some pv =>
        some { st1 with
          files := store st1.files prev { pv with next := some pipe_file }
          pipes := { st1.pipes with last := some pipe_file } }

/-! ## Create -/

/-- Result of `OfcFSPipeCreateFile`: the handle returned (`none` is
`OFC_HANDLE_NULL`) and the last error set by the call. -/
structure CreateResult where
  ret : Option Nat
  lastError : Option OFC_ERROR
deriving DecidableEq, Repr

/-- The lookup loop of the client path (fs_pipe.c 195-204), started at a
chain pointer.  Outer `none`: the walk reads through a dangling pointer or
does not end within the fuel; `some none`: not found. -/
def findScan (files : List (Option OFC_FS_PIPE_FILE)) (lpFileName : List Nat) :
    Nat → Option Nat → Option (Option Nat)
  | 0, _ => none
  | _ + 1, none => some none
  | fuel + 1, some p =>
    match deref files p with
    | none => none
    | some f =>
      if f.name = lpFileName ∧ f.client = none then some (some p)
      else findScan files lpFileName fuel f.next

/-- `OfcFSPipeCreateFile` (fs_pipe.c 120-241).  `fileOk` and `halfOk` say
whether the `ofc_malloc` of the entry and of the half succeed.  The server
path ends its first step suspended in the wait for a client (the half was
just created with no sibling); `OfcFSPipeCreateFile_wait` is the loop
condition taken again after a wake. -/
def OfcFSPipeCreateFile (st : State) (lpFileName : List Nat)
    (dwCreationDisposition : OFC_CREATE_DISPOSITION) (fileOk halfOk : Bool) :
    Step CreateResult :=
  if dwCreationDisposition = .OFC_CREATE_ALWAYS ∨
      dwCreationDisposition = .OFC_CREATE_NEW then
    if fileOk then
      if halfOk then
        let pipe_file := st.files.length
        let server := st.halves.length
        let st1 : State :=
          { st with
            files := ofc_malloc st.files
              { next := none, name := lpFileName, server := some server, client := none }
            halves := ofc_malloc st.halves
              { hPipe := some server, hWaitQ := [], pipe_file := some pipe_file,
                sibling := none } }
        match pipe_enqueue_internal st1 pipe_file with
        | none => .fault
        | some st2 => .block st2
      else
        .ret st { ret := none, lastError := some OFC_ERROR.NOT_ENOUGH_MEMORY }
    else
      .ret st { ret := none, lastError := none }
  else
    match findScan st.files lpFileName (st.files.length + 1) st.pipes.first with
    | none => .fault
    | some none =>
      .ret st { ret := none, lastError := some OFC_ERROR.FILE_NOT_FOUND }
    | some (some pipe_file) =>
      if halfOk then
        match deref st.files pipe_file with
        | none => .fault
        | some pf =>
          let client := st.halves.length
          let files1 := store st.files pipe_file { pf with client := some client }
          let halves1 := ofc_malloc st.halves
            { hPipe := some client, hWaitQ := [], pipe_file := some pipe_file,
              sibling := pf.server }
          match pf.server with
          | none => .fault
          | some server =>
            match deref halves1 server with
            | none => .fault
            | some sv =>
              .ret { st with files := files1,
                             halves := store halves1 server { sv with sibling := some client } }
                { ret := some client, lastError := none }
      else
        .ret st { ret := none, lastError := some OFC_ERROR.NOT_ENOUGH_MEMORY }

/-- The wait loop of the server path (fs_pipe.c 169-174), one evaluation of
its condition for the server half at `server`. -/
def OfcFSPipeCreateFile_wait (st : State) (server : Nat) : Step CreateResult :=
  match deref st.halves server with
  | none => .fault
  | some sv =>
    if sv.sibling = none then .block st
    else .ret st { ret := sv.hPipe, lastError := none }

/-! ## Close -/

/-- The drain loop of `OfcFSPipeCloseHandle` (fs_pipe.c 365-370): dequeue and
free until the queue is empty. -/
def drain : List OFC_FS_PIPE_DATA → List OFC_FS_PIPE_DATA
  | [] => []
  | _ :: q => drain q

/-- `OfcFSPipeCloseHandle` (fs_pipe.c 350-402). -/
def OfcFSPipeCloseHandle (st : State) (hFile : Nat) : Step Bool :=
  match ofc_handle_lock st hFile with
  | none => .ret st false
  | some half =>
    let half1 : OFC_FS_PIPE_HALF := { half with hWaitQ := drain half.hWaitQ, hPipe := none }
    let st1 : State := { st with halves := store st.halves hFile half1 }
    match half1.sibling with
    | some sibling =>
      match deref st1.halves sibling with
      | none => .fault
      | some peer =>
        let halves2 := store st1.halves sibling { peer with sibling := none }
        .ret { st1 with halves := ofc_free halves2 hFile } true
    | none =>
      match half1.pipe_file with
      | none => .ret { st1 with halves := ofc_free st1.halves hFile } true
      | some pipe_file =>
        match pipe_unlink_internal st1 pipe_file with
        | none => .fault
        | some st2 =>
          match deref st2.files pipe_file with
          | none => .fault
          | some _ =>
            .ret { st2 with files := ofc_free st2.files pipe_file
                            halves := ofc_free st2.halves hFile } true

/-! ## Transact -/

/-- The reply loop of `OfcFSPipeTransactNamedPipe` (fs_pipe.c 655-666), one
evaluation: dequeue the front record of the local queue, or suspend. -/
def OfcFSPipeTransactNamedPipe_wait (st : State) (hFile : Nat) (nOutBufferSize : Nat) :
    Step ReadResult :=
  match deref st.halves hFile with
  | none => .fault
  | some half =>
    match half.hWaitQ with
    | [] => .block st
    | data :: rest =>
      let nBytes := min nOutBufferSize data.len
      .ret (setQueue st hFile half rest)
        { ret := true, nRead := some nBytes, bytes := data.buffer.take nBytes,
          lastError := none }

/-- `OfcFSPipeTransactNamedPipe` (fs_pipe.c 624-677); `lpInBuffer` is the
request, its length is `nInBufferSize`. -/
def OfcFSPipeTransactNamedPipe (st : State) (hFile : Nat) (lpInBuffer : List Nat)
    (nOutBufferSize : Nat) : Step ReadResult :=
  match ofc_handle_lock st hFile with
  | none => .ret st { ret := false, nRead := none, bytes := [], lastError := none }
  | some half =>
    match half.sibling with
    | some sibling =>
      match deref st.halves sibling with
      | none => .fault
      | some peer =>
        let data : OFC_FS_PIPE_DATA :=
          { len := lpInBuffer.length, offset := 0, buffer := lpInBuffer }
        OfcFSPipeTransactNamedPipe_wait
          (setQueue st sibling peer (peer.hWaitQ ++ [data])) hFile nOutBufferSize
    | none =>
      .ret st { ret := false, nRead := none, bytes := [],
                lastError := some OFC_ERROR.BROKEN_PIPE }

/-! ## Runs -/

/-- The calls of the provider table that act on the pipe state. -/
inductive Op where
  | create (lpFileName : List Nat) (disp : OFC_CREATE_DISPOSITION) (fileOk halfOk : Bool)
  | write (hFile : Nat) (lpBuffer : List Nat)
  | read (hFile : Nat) (nNumberOfBytesToRead : Nat)
  | transact (hFile : Nat) (lpInBuffer : List Nat) (nOutBufferSize : Nat)
  | transactWake (hFile : Nat) (nOutBufferSize : Nat)
  | close (hFile : Nat)
deriving DecidableEq, Repr

/-- The state a step leaves behind. -/
def Step.state {ρ : Type} : Step ρ → Option State
  | .ret st _ => some st
  | .block st => some st
  | .fault => none

/-- The result a step returns to its caller, when it returns. -/
def Step.result {ρ : Type} : Step ρ → Option ρ
  | .ret _ r => some r
  | .block _ => none
  | .fault => none

/-- The state after one call. -/
def Op.apply (st : State) : Op → Option State
  | .create n d a b => (OfcFSPipeCreateFile st n d a b).state
  | .write h b => (OfcFSPipeWriteFile st h b).state
  | .read h n => (OfcFSPipeReadFile st h n).state
  | .transact h b n => (OfcFSPipeTransactNamedPipe st h b n).state
  | .transactWake h n => (OfcFSPipeTransactNamedPipe_wait st h n).state
  | .close h => (OfcFSPipeCloseHandle st h).state

/-- The state after a sequence of calls. -/
def run (st : State) : List Op → Option State
  | [] => some st
  | op :: ops =>
    match op.apply st with
    | none => none
    | some st1 => run st1 ops

/-- States reached from startup by creates, writes, reads, transacts and closes. -/
def Reachable (st : State) : Prop :=
  ∃ ops : List Op, run OfcFSPipeStartup ops = some st

/-! ## The registry as a sequence -/

/-- The walk from `p` along `next` visits exactly the addresses of `l`, all
live, and then stands at `q`. -/
def IsSeg (files : List (Option OFC_FS_PIPE_FILE)) :
    Option Nat → List Nat → Option Nat → Prop
  | p, [], q => p = q
  | p, x :: l, q => p = some x ∧ ∃ f, deref files x = some f ∧ IsSeg files f.next l q

/-- The addresses reachable from a chain pointer, in order; `none` when the
walk meets a dangling pointer or does not end within the fuel. -/
def chainFrom (files : List (Option OFC_FS_PIPE_FILE)) :
    Nat → Option Nat → Option (List Nat)
  | 0, _ => none
  | _ + 1, none => some []
  | fuel + 1, some p =>
    match deref files p with
    | none => none
    | some f => (chainFrom files fuel f.next).map (fun l => p :: l)

/-- The registry collection: the entries reachable from `pipes.first`, in
chain order. -/
def registry (st : State) : Option (List Nat) :=
  chainFrom st.files (st.files.length + 1) st.pipes.first

/-- The test of the client lookup loop on the entry at `p`: the name matches
and the client slot is empty. -/
def connectable (files : List (Option OFC_FS_PIPE_FILE)) (lpFileName : List Nat)
    (p : Nat) : Bool :=
  match deref files p with
  | some f => decide (f.name = lpFileName ∧ f.client = none)
  | none => false

/-! ## Byte streams -/

/-- The unread bytes of a record: `len` bytes of the buffer from the cursor on. -/
def OFC_FS_PIPE_DATA.unread (d : OFC_FS_PIPE_DATA) : List Nat :=
  (d.buffer.drop d.offset).take d.len

/-- The unread bytes of a queue, front record first. -/
def unreadBytes : List OFC_FS_PIPE_DATA → List Nat
  | [] => []
  | d :: q => d.unread ++ unreadBytes q

/-- One call of a producer/consumer schedule on a pair of halves: a Write of a
payload on the producing half or a Read with a requested length on the
consuming half. -/
inductive PipeCall where
  | write (payload : List Nat)
  | read (nNumberOfBytesToRead : Nat)
deriving DecidableEq, Repr

/-- The concatenation of the payloads written by a schedule. -/
def written : List PipeCall → List Nat
  | [] => []
  | .write w :: cs => w ++ written cs
  | .read _ :: cs => written cs

/-- Run a schedule, Writes on half `a` and Reads on half `b`; answers the
final state and the concatenation of the bytes delivered by the Reads that
returned TRUE (a Read that suspends or fails delivers nothing).  `none` when
a Write does not return TRUE with the full count or a call faults. -/
def pump (a b : Nat) : State → List PipeCall → Option (State × List Nat)
  | st, [] => some (st, [])
  | st, .write w :: cs =>
    match OfcFSPipeWriteFile st a w with
    | .ret st1 r =>
      if r.ret = true ∧ r.written = some w.length then pump a b st1 cs else none
    | .block _ => none
    | .fault => none
  | st, .read n :: cs =>
    match OfcFSPipeReadFile st b n with
    | .ret st1 r =>
      (pump a b st1 cs).map (fun out => (out.1, (if r.ret then r.bytes else []) ++ out.2))
    | .block st1 => pump a b st1 cs
    | .fault => none

/-- Weight of a queue: the unread length of every record plus one per
record.  A Read with a positive requested length on a non-empty queue lowers
it. -/
def queueWeight : List OFC_FS_PIPE_DATA → Nat
  | [] => 0
  | d :: q => d.len + 1 + queueWeight q

/-- Weight a schedule puts into the consumer's queue: one per byte written and
one per Write. -/
def writeWeight : List PipeCall → Nat
  | [] => 0
  | .write w :: cs => w.length + 1 + writeWeight cs
  | .read _ :: cs => writeWeight cs

/-! ## Shutdown -/

/-- The force-close of one slot in `OfcFSPipeShutdown` (fs_pipe.c 835-854);
`p` is `pipe_file->client` or `pipe_file->server`.  A null slot is skipped.
The slot of a half that was closed before still holds its address; the test
`hPipe != OFC_HANDLE_NULL` on it is taken as false, the value Close stored
there before it freed the half.  After the Close the store
`hPipe = OFC_HANDLE_NULL` is made when the half is still there (the Close
returned FALSE); into a half the Close has freed it leaves no trace. -/
def shutdownClose (st : State) (p : Option Nat) : Option State :=
  match p with
  | none => some st
  | some h =>
    match deref st.halves h with
    | none => some st
    | some half =>
      match half.hPipe with
      | none => some st
      | some hPipe =>
        match (OfcFSPipeCloseHandle st hPipe).state with
        | none => none
        | some st1 =>
          match deref st1.halves h with
          | none => some st1
          | some half1 =>
            some { st1 with halves := store st1.halves h { half1 with hPipe := none } }

/-- The loop of `OfcFSPipeShutdown` (fs_pipe.c 828-856): pop the first entry,
force-close its client slot and then its server slot.  The two slots are read
from the entry as it is when popped (Close writes neither).  `none`: an entry
pointer dangles, a Close faults, or the loop does not end within the fuel. -/
def shutdownLoop : Nat → State → Option State
  | 0, _ => none
  | fuel + 1, st =>
    match st.pipes.first with
    | none => some st
    | some pipe_file =>
      match deref st.files pipe_file with
      | none => none
      | some pf =>
        let st1 : State := { st with pipes := { st.pipes with first := pf.next } }
        match shutdownClose st1 pf.client with
        | none => none
        | some st2 =>
          match shutdownClose st2 pf.server with
          | none => none
          | some st3 => shutdownLoop fuel st3

/-- `OfcFSPipeShutdown` (fs_pipe.c 823-861), on the pipe state. -/
def OfcFSPipeShutdown (st : State) : Option State :=
  shutdownLoop (st.files.length + 1) st

/-! ## Stub operations -/

/-- Result of a stub that returns `OFC_BOOL`. -/
structure BoolResult where
  ret : Bool
  lastError : Option OFC_ERROR
deriving DecidableEq, Repr

/-- Result of a stub that returns a handle (`none` is `OFC_HANDLE_NULL`). -/
structure HandleResult where
  ret : Option Nat
  lastError : Option OFC_ERROR
deriving DecidableEq, Repr

/-- `OfcFSPipeCreateDirectory` (fs_pipe.c 243-251). -/
def OfcFSPipeCreateDirectory (_lpPathName : List Nat) : BoolResult :=
  { ret := false, lastError := some OFC_ERROR.CALL_NOT_IMPLEMENTED }

/-- `OfcFSPipeFindFirstFile` (fs_pipe.c 420-428). -/
def OfcFSPipeFindFirstFile (_lpFileName : List Nat) : HandleResult :=
  { ret := none, lastError := some OFC_ERROR.CALL_NOT_IMPLEMENTED }

/-- `OfcFSPipeFindNextFile` (fs_pipe.c 430-438). -/
def OfcFSPipeFindNextFile (_hFindFile : Nat) : BoolResult :=
  { ret := false, lastError := some OFC_ERROR.CALL_NOT_IMPLEMENTED }

/-- `OfcFSPipeFindClose` (fs_pipe.c 440-446). -/
def OfcFSPipeFindClose (_hFindFile : Nat) : BoolResult :=
  { ret := false, lastError := some OFC_ERROR.CALL_NOT_IMPLEMENTED }

/-- `OfcFSPipeFlushFileBuffers` (fs_pipe.c 448-454): sets the error and
returns `OFC_TRUE`. -/
def OfcFSPipeFlushFileBuffers (_hFile : Nat) : BoolResult :=
  { ret := true, lastError := some OFC_ERROR.CALL_NOT_IMPLEMENTED }

/-- `OfcFSPipeMoveFile` (fs_pipe.c 549-556). -/
def OfcFSPipeMoveFile (_lpExistingFileName _lpNewFileName : List Nat) : BoolResult :=
  { ret := false, lastError := some OFC_ERROR.CALL_NOT_IMPLEMENTED }

/-- `OfcFSPipeCreateOverlapped` (fs_pipe.c 558-564). -/
def OfcFSPipeCreateOverlapped : HandleResult :=
  { ret := none, lastError := some OFC_ERROR.CALL_NOT_IMPLEMENTED }

/-- `OfcFSPipeGetOverlappedResult` (fs_pipe.c 575-585). -/
def OfcFSPipeGetOverlappedResult (_hFile _hOverlapped : Nat) (_bWait : Bool) : BoolResult :=
  { ret := false, lastError := some OFC_ERROR.CALL_NOT_IMPLEMENTED }

/-- `OfcFSPipeSetFileAttributes` (fs_pipe.c 595-602). -/
def OfcFSPipeSetFileAttributes (_lpFileName : List Nat) (_dwFileAttributes : Nat) :
    BoolResult :=
  { ret := false, lastError := some OFC_ERROR.CALL_NOT_IMPLEMENTED }

/-- `OfcFSPipeSetFileInformationByHandle` (fs_pipe.c 604-614). -/
def OfcFSPipeSetFileInformationByHandle (_hFile _FileInformationClass : Nat)
    (_lpFileInformation : List Nat) (_dwBufferSize : Nat) : BoolResult :=
  { ret := false, lastError := some OFC_ERROR.CALL_NOT_IMPLEMENTED }

/-- `OfcFSPipeGetDiskFreeSpace` (fs_pipe.c 679-690). -/
def OfcFSPipeGetDiskFreeSpace (_lpRootPathName : List Nat) : BoolResult :=
  { ret := false, lastError := some OFC_ERROR.CALL_NOT_IMPLEMENTED }

/-- `OfcFSPipeGetVolumeInformation` (fs_pipe.c 692-706). -/
def OfcFSPipeGetVolumeInformation (_lpRootPathName : List Nat)
    (_nVolumeNameSize _nFileSystemName : Nat) : BoolResult :=
  { ret := false, lastError := some OFC_ERROR.CALL_NOT_IMPLEMENTED }

/-! ## Sequences of list operations -/

/-- A call of one of the two registry list functions. -/
inductive ListOp where
  | enqueue (pipe_file : Nat)
  | unlink (pipe_file : Nat)
deriving DecidableEq, Repr

/-- The state after one list operation. -/
def ListOp.apply (st : State) : ListOp → Option State
  | .enqueue pipe_file => pipe_enqueue_internal st pipe_file
  | .unlink pipe_file => pipe_unlink_internal st pipe_file

/-- The state after a sequence of list operations. -/
def runList (st : State) : List ListOp → Option State
  | [] => some st
  | op :: ops =>
    match op.apply st with
    | none => none
    | some st1 => runList st1 ops

/-- Well-formedness of the registry list: `pipes.last` is null exactly when
`pipes.first` is, and `pipes.last` is the final entry of the chain from
`pipes.first` (null for the empty chain). -/
def ListWellFormed (st : State) : Prop :=
  (st.pipes.last = none ↔ st.pipes.first = none) ∧
  (registry st).map (fun l => l.getLast?) = some st.pipes.last

instance (st : State) : Decidable (ListWellFormed st) := by
  unfold ListWellFormed
  exact inferInstance

/-! ## Invariants -/

/-- The record invariant: cursor plus unread length is the length of the
buffer, which holds the payload as written. -/
def GoodRecord (d : OFC_FS_PIPE_DATA) : Prop :=
  d.offset + d.len = d.buffer.length

/-- Every record in the queue of every live half of a heap satisfies
`GoodRecord`. -/
def GoodHeap (halves : List (Option OFC_FS_PIPE_HALF)) : Prop :=
  ∀ half, some half ∈ halves → ∀ d ∈ half.hWaitQ, GoodRecord d

/-- Every record in the queue of every live half satisfies `GoodRecord`. -/
def RecordInv (st : State) : Prop :=
  GoodHeap st.halves

/-- Peer mutuality: for live halves `a` and `b`, `a` names `b` as its sibling
exactly when `b` names `a`. -/
def PeerMutual (st : State) : Prop :=
  ∀ a b ha hb, deref st.halves a = some ha → deref st.halves b = some hb →
    (ha.sibling = some b ↔ hb.sibling = some a)

/-- The linkage invariant carried along a run: a sibling pointer leads to a
different live half that points back; the server pointer of a live entry lies
inside the half heap, and while that half is live it belongs to the entry and
has no sibling as long as the entry's client slot is empty. -/
structure LinkInv (st : State) : Prop where
  sibling_back : ∀ a ha b, deref st.halves a = some ha → ha.sibling = some b →
    b ≠ a ∧ ∃ hb, deref st.halves b = some hb ∧ hb.sibling = some a
  server_owned : ∀ p f s, deref st.files p = some f → f.server = some s →
    s < st.halves.length ∧
    ∀ hs, deref st.halves s = some hs →
      hs.pipe_file = some p ∧ (f.client = none → hs.sibling = none)

/-! ## Sample states -/

/-- After one server create for the name `[1]`: an unconnected server half 0. -/
def sampleServerOnly : State :=
  { files := [some { next := none, name := [1], server := some 0, client := none }],
    halves := [some { hPipe := some 0, hWaitQ := [], pipe_file := some 0, sibling := none }],
    pipes := { first := some 0, last := some 0 } }

/-- After a server create and a client create for the name `[1]`: server half 0
and client half 1, connected, both queues empty. -/
def sampleConnected : State :=
  { files := [some { next := none, name := [1], server := some 0, client := some 1 }],
    halves := [some { hPipe := some 0, hWaitQ := [], pipe_file := some 0, sibling := some 1 },
               some { hPipe := some 1, hWaitQ := [], pipe_file := some 0, sibling := some 0 }],
    pipes := { first := some 0, last := some 0 } }

/-- The record holding the five bytes of "hello", nothing consumed. -/
def sampleHello : OFC_FS_PIPE_DATA :=
  { len := 5, offset := 0, buffer := [104, 101, 108, 108, 111] }

/-- The connected pair after the client wrote "hello". -/
def sampleHelloSent : State :=
  { files := [some { next := none, name := [1], server := some 0, client := some 1 }],
    halves := [some { hPipe := some 0, hWaitQ := [sampleHello], pipe_file := some 0,
                      sibling := some 1 },
               some { hPipe := some 1, hWaitQ := [], pipe_file := some 0, sibling := some 0 }],
    pipes := { first := some 0, last := some 0 } }

/-- After server creates for the names `[1]` and `[2]`: two unconnected server
halves, entries 0 and 1 chained in that order. -/
def sampleTwoServers : State :=
  { files := [some { next := some 1, name := [1], server := some 0, client := none },
              some { next := none, name := [2], server := some 1, client := none }],
    halves := [some { hPipe := some 0, hWaitQ := [], pipe_file := some 0, sibling := none },
               some { hPipe := some 1, hWaitQ := [], pipe_file := some 1, sibling := none }],
    pipes := { first := some 0, last := some 1 } }

/-- The calls that leave a connected pair behind an empty `pipes.last`: pipe
`[1]` is created and connected (halves 0 and 1), pipe `[2]` is created and
connected (halves 2 and 3), then both halves of pipe `[2]` close. -/
def sampleTailClosedOps : List Op :=
  [.create [1] .OFC_CREATE_NEW true true, .create [1] .OFC_OPEN_EXISTING true true,
   .create [2] .OFC_CREATE_NEW true true, .create [2] .OFC_OPEN_EXISTING true true,
   .close 3, .close 2]

/-- The state after `sampleTailClosedOps`. -/
def sampleTailClosed : State :=
  { files := [some { next := none, name := [1], server := some 0, client := some 1 }, none],
    halves := [some { hPipe := some 0, hWaitQ := [], pipe_file := some 0, sibling := some 1 },
               some { hPipe := some 1, hWaitQ := [], pipe_file := some 0, sibling := some 0 },
               none, none],
    pipes := { first := some 0, last := none } }

/-- The connected pair after the server wrote "0123456789" and the client read
4 bytes: the client's front record has cursor 4 and 6 bytes unread. -/
def samplePartRead : State :=
  { files := [some { next := none, name := [1], server := some 0, client := some 1 }],
    halves := [some { hPipe := some 0, hWaitQ := [], pipe_file := some 0, sibling := some 1 },
               some { hPipe := some 1, pipe_file := some 0, sibling := some 0,
                      hWaitQ := [{ len := 6, offset := 4,
                                   buffer := [48, 49, 50, 51, 52, 53, 54, 55, 56, 57] }] }],
    pipes := { first := some 0, last := some 0 } }

/-- Two unconnected servers with the same name `[1]`: entries 0 and 1. -/
def sampleTwins : State :=
  { files := [some { next := some 1, name := [1], server := some 0, client := none },
              some { next := none, name := [1], server := some 1, client := none }],
    halves := [some { hPipe := some 0, hWaitQ := [], pipe_file := some 0, sibling := none },
               some { hPipe := some 1, hWaitQ := [], pipe_file := some 1, sibling := none }],
    pipes := { first := some 0, last := some 1 } }

/-- The record holding the request "ping". -/
def samplePing : OFC_FS_PIPE_DATA :=
  { len := 4, offset := 0, buffer := [112, 105, 110, 103] }

/-- The record holding the reply "pong". -/
def samplePong : OFC_FS_PIPE_DATA :=
  { len := 4, offset := 0, buffer := [112, 111, 110, 103] }

/-- The connected pair while the client (half 1) waits in Transact: its
request "ping" is in the server's queue, its own queue is empty. -/
def samplePingSent : State :=
  { files := [some { next := none, name := [1], server := some 0, client := some 1 }],
    halves := [some { hPipe := some 0, hWaitQ := [samplePing], pipe_file := some 0,
                      sibling := some 1 },
               some { hPipe := some 1, hWaitQ := [], pipe_file := some 0, sibling := some 0 }],
    pipes := { first := some 0, last := some 0 } }

/-- `samplePingSent` after the server wrote the reply "pong". -/
def samplePongSent : State :=
  { files := [some { next := none, name := [1], server := some 0, client := some 1 }],
    halves := [some { hPipe := some 0, hWaitQ := [samplePing], pipe_file := some 0,
                      sibling := some 1 },
               some { hPipe := some 1, hWaitQ := [samplePong], pipe_file := some 0,
                      sibling := some 0 }],
    pipes := { first := some 0, last := some 0 } }

/-- `samplePingSent` after the server closed instead of replying: the client
has an empty queue and no sibling. -/
def samplePingOrphan : State :=
  { files := [some { next := none, name := [1], server := some 0, client := some 1 }],
    halves := [none,
               some { hPipe := some 1, hWaitQ := [], pipe_file := some 0, sibling := none }],
    pipes := { first := some 0, last := some 0 } }

/-- Two allocated entries, none registered yet: the registry is empty as
`OfcFSPipeStartup` leaves it. -/
def sampleLoose : State :=
  { files := [some { next := none, name := [1], server := some 0, client := none },
              some { next := none, name := [2], server := some 1, client := none }],
    halves := [some { hPipe := some 0, hWaitQ := [], pipe_file := some 0, sibling := none },
               some { hPipe := some 1, hWaitQ := [], pipe_file := some 1, sibling := none }],
    pipes := { first := none, last := none } }

end OfcFsPipe

/-! ## Heap lemmas -/

namespace OfcFsPipe

section Heap
variable {α : Type}

theorem deref_eq_some {heap : List (Option α)} {p : Nat} {v : α} :
    deref heap p = some v ↔ heap[p]? = some (some v) := by
  unfold deref
  split
  · next w hw => simp [hw]
  · next hn =>
    constructor
    · intro h; cases h
    · intro h; exact absurd h (hn v)

theorem deref_lt {heap : List (Option α)} {p : Nat} {v : α}
    (h : deref heap p = some v) : p < heap.length := by
  rw [deref_eq_some] at h
  by_contra hc
  rw [List.getElem?_eq_none (Nat.le_of_not_lt hc)] at h
  cases h

theorem deref_store (heap : List (Option α)) (p q : Nat) (v : α) :
    deref (store heap p v) q =
      if p = q then (if p < heap.length then some v else none) else deref heap q := by
  unfold deref store
  rw [List.getElem?_set]
  by_cases hpq : p = q
  · by_cases hl : p < heap.length
    · simp [hpq, hl]
      simp [← hpq, hl]
    · simp [hpq, hl]
      simp [← hpq, hl]
  · simp [hpq]

theorem deref_store_self {heap : List (Option α)} {p : Nat} {v w : α}
    (h : deref heap p = some w) : deref (store heap p v) p = some v := by
  rw [deref_store]; simp [deref_lt h]

theorem deref_store_ne {heap : List (Option α)} {p q : Nat} (v : α) (h : p ≠ q) :
    deref (store heap p v) q = deref heap q := by
  rw [deref_store]; simp [h]

theorem deref_free (heap : List (Option α)) (p q : Nat) :
    deref (ofc_free heap p) q = if p = q then none else deref heap q := by
  unfold deref ofc_free
  rw [List.getElem?_set]
  by_cases hpq : p = q
  · by_cases hl : p < heap.length
    · simp [hpq, hl]
    · simp [hpq, hl]
  · simp [hpq]

theorem deref_free_self (heap : List (Option α)) (p : Nat) :
    deref (ofc_free heap p) p = none := by
  rw [deref_free]; simp

theorem deref_free_ne {heap : List (Option α)} {p q : Nat} (h : p ≠ q) :
    deref (ofc_free heap p) q = deref heap q := by
  rw [deref_free]; simp [h]

theorem deref_malloc (heap : List (Option α)) (q : Nat) (v : α) :
    deref (ofc_malloc heap v) q =
      if q = heap.length then some v else deref heap q := by
  unfold deref ofc_malloc
  rw [List.getElem?_append]
  rcases Nat.lt_trichotomy q heap.length with hl | hl | hl
  · simp [hl, Nat.ne_of_lt hl]
  · simp [hl]
  · have h1 : ¬ q < heap.length := by omega
    have h2 : q ≠ heap.length := by omega
    have h3 : heap[q]? = none := List.getElem?_eq_none (by omega)
    obtain ⟨k, hk⟩ : ∃ k, q - heap.length = k + 1 := ⟨q - heap.length - 1, by omega⟩
    simp [h1, h2, h3, hk]

theorem deref_malloc_new (heap : List (Option α)) (v : α) :
    deref (ofc_malloc heap v) heap.length = some v := by
  rw [deref_malloc]; simp

theorem deref_malloc_old {heap : List (Option α)} {q : Nat} {w : α} (v : α)
    (h : deref heap q = some w) : deref (ofc_malloc heap v) q = some w := by
  rw [deref_malloc]; simp [Nat.ne_of_lt (deref_lt h), h]

@[simp] theorem length_store (heap : List (Option α)) (p : Nat) (v : α) :
    (store heap p v).length = heap.length := by
  simp [store]

@[simp] theorem length_free (heap : List (Option α)) (p : Nat) :
    (ofc_free heap p).length = heap.length := by
  simp [ofc_free]

@[simp] theorem length_malloc (heap : List (Option α)) (v : α) :
    (ofc_malloc heap v).length = heap.length + 1 := by
  simp [ofc_malloc]

theorem free_store (heap : List (Option α)) (p : Nat) (v : α) :
    ofc_free (store heap p v) p = ofc_free heap p := by
  simp [ofc_free, store, List.set_set]

theorem getElem?_store_ne {heap : List (Option α)} {p q : Nat} (v : α) (h : p ≠ q) :
    (store heap p v)[q]? = heap[q]? := by
  simp [store, List.getElem?_set_ne h]

end Heap

end OfcFsPipe

/-! ## Read, Write and Transact on one half -/

namespace OfcFsPipe

/-- The step of a Read that finds a front record. -/
theorem read_front_eq (st : State) (hFile : Nat) (half : OFC_FS_PIPE_HALF)
    (d : OFC_FS_PIPE_DATA) (rest : List OFC_FS_PIPE_DATA) (n : Nat)
    (hh : ofc_handle_lock st hFile = some half) (hq : half.hWaitQ = d :: rest) :
    OfcFSPipeReadFile st hFile n =
      .ret (setQueue st hFile half
          (if d.len - min n d.len = 0 then rest
           else { d with len := d.len - min n d.len,
                         offset := d.offset + min n d.len } :: rest))
        { ret := true, nRead := some (min n d.len),
          bytes := (d.buffer.drop d.offset).take (min n d.len),
          lastError := none } := by
  simp only [OfcFSPipeReadFile, hh, hq]

/-- C2: a Read on a half whose queue has a front record with cursor `offset`
and `len` unread bytes returns success, stores `min n len` (at most `n`) as the
count, and delivers exactly that many bytes, byte `i` of them being the
buffer byte at position `offset + i`. -/
theorem read_front_record (st : State) (hFile : Nat) (half : OFC_FS_PIPE_HALF)
    (data : OFC_FS_PIPE_DATA) (rest : List OFC_FS_PIPE_DATA) (n : Nat)
    (hh : ofc_handle_lock st hFile = some half)
    (hq : half.hWaitQ = data :: rest)
    (hb : data.offset + data.len ≤ data.buffer.length) :
    ∃ st1 r, OfcFSPipeReadFile st hFile n = .ret st1 r ∧
      r.ret = true ∧ r.lastError = none ∧
      r.nRead = some (min n data.len) ∧ min n data.len ≤ n ∧
      r.bytes.length = min n data.len ∧
      (∀ i, i < min n data.len → r.bytes[i]? = data.buffer[data.offset + i]?) ∧
      r.bytes = (data.buffer.drop data.offset).take (min n data.len) := by
  have h : OfcFSPipeReadFile st hFile n =
      .ret (setQueue st hFile half
          (if data.len - min n data.len = 0 then rest
           else { data with len := data.len - min n data.len,
                            offset := data.offset + min n data.len } :: rest))
        { ret := true, nRead := some (min n data.len),
          bytes := (data.buffer.drop data.offset).take (min n data.len),
          lastError := none } := by
    simp only [OfcFSPipeReadFile, hh, hq]
  refine ⟨_, _, h, rfl, rfl, rfl, Nat.min_le_left _ _, ?_, ?_, rfl⟩
  · simp only [List.length_take, List.length_drop]
    omega
  · intro i hi
    simp only [List.getElem?_take, hi, if_true, List.getElem?_drop]

/-- Scenario B of C2: the record "hello" read with requested length 8. -/
theorem read_front_record_witness :
    ∃ st1 r, OfcFSPipeReadFile sampleHelloSent 0 8 = .ret st1 r ∧
      r.ret = true ∧ r.lastError = none ∧
      r.nRead = some (min 8 sampleHello.len) ∧ min 8 sampleHello.len ≤ 8 ∧
      r.bytes.length = min 8 sampleHello.len ∧
      (∀ i, i < min 8 sampleHello.len →
        r.bytes[i]? = sampleHello.buffer[sampleHello.offset + i]?) ∧
      r.bytes = (sampleHello.buffer.drop sampleHello.offset).take (min 8 sampleHello.len) :=
  read_front_record sampleHelloSent 0
    { hPipe := some 0, hWaitQ := [sampleHello], pipe_file := some 0, sibling := some 1 }
    sampleHello [] 8 rfl rfl (by decide)

/-- C3: a Read on a half whose queue is empty and whose sibling is absent
returns failure with `BROKEN_PIPE`, no count, no bytes, and the state as it
was; and when the sibling closes while a Read is suspended on the empty
queue, the Read taken again after the wake is in that situation. -/
theorem read_peer_absent_broken_pipe :
    (∀ (st : State) (hFile : Nat) (half : OFC_FS_PIPE_HALF) (n : Nat),
      ofc_handle_lock st hFile = some half → half.hWaitQ = [] → half.sibling = none →
      OfcFSPipeReadFile st hFile n =
        .ret st { ret := false, nRead := none, bytes := [],
                  lastError := some OFC_ERROR.BROKEN_PIPE }) ∧
    (∀ (st : State) (hFile s : Nat) (half peer : OFC_FS_PIPE_HALF) (n : Nat),
      ofc_handle_lock st hFile = some half → half.hWaitQ = [] →
      half.sibling = some s → s ≠ hFile →
      ofc_handle_lock st s = some peer → peer.sibling = some hFile →
      OfcFSPipeReadFile st hFile n = .block st ∧
      ∃ st1, OfcFSPipeCloseHandle st s = .ret st1 true ∧
        OfcFSPipeReadFile st1 hFile n =
          .ret st1 { ret := false, nRead := none, bytes := [],
                     lastError := some OFC_ERROR.BROKEN_PIPE }) := by
  constructor
  · intro st hFile half n hh hq hs
    simp [OfcFSPipeReadFile, hh, hq, hs]
  · intro st hFile s half peer n hh hq hs hne hp hps
    obtain ⟨hP, hQ, hF, hS⟩ := half
    obtain ⟨pP, pQ, pF, pS⟩ := peer
    simp only at hq hs hps
    subst hq hs hps
    constructor
    · simp [OfcFSPipeReadFile, hh]
    · unfold ofc_handle_lock at hh hp
      have h1 : deref (store st.halves s
          { hPipe := none, hWaitQ := drain pQ, pipe_file := pF, sibling := some hFile })
          hFile = some { hPipe := hP, hWaitQ := [], pipe_file := hF, sibling := some s } := by
        rw [deref_store_ne _ hne]; exact hh
      have h2 : ofc_handle_lock
          { st with halves := ofc_free (store (store st.halves s
              { hPipe := none, hWaitQ := drain pQ, pipe_file := pF, sibling := some hFile })
              hFile { hPipe := hP, hWaitQ := [], pipe_file := hF, sibling := none }) s } hFile
            = some { hPipe := hP, hWaitQ := [], pipe_file := hF, sibling := none } := by
        unfold ofc_handle_lock
        simp only
        rw [deref_free_ne hne, deref_store_self h1]
      refine ⟨{ st with halves := ofc_free (store (store st.halves s
              { hPipe := none, hWaitQ := drain pQ, pipe_file := pF, sibling := some hFile })
              hFile { hPipe := hP, hWaitQ := [], pipe_file := hF, sibling := none }) s }, ?_, ?_⟩
      · simp only [OfcFSPipeCloseHandle, ofc_handle_lock, hp, h1]
      · simp only [OfcFSPipeReadFile, h2]
        simp

/-- Scenario D of C3: the client (half 1) closes while the server (half 0) is
suspended in Read. -/
theorem read_peer_absent_broken_pipe_witness :
    OfcFSPipeReadFile sampleConnected 0 8 = .block sampleConnected ∧
    ∃ st1, OfcFSPipeCloseHandle sampleConnected 1 = .ret st1 true ∧
      OfcFSPipeReadFile st1 0 8 =
        .ret st1 { ret := false, nRead := none, bytes := [],
                   lastError := some OFC_ERROR.BROKEN_PIPE } :=
  read_peer_absent_broken_pipe.2 sampleConnected 0 1
    { hPipe := some 0, hWaitQ := [], pipe_file := some 0, sibling := some 1 }
    { hPipe := some 1, hWaitQ := [], pipe_file := some 0, sibling := some 0 }
    8 rfl rfl rfl (by decide) rfl rfl

/-- C4: on a half whose sibling is absent, Write and Transact both return
failure with `BROKEN_PIPE` and leave the state (both heaps and the registry
head) as it was. -/
theorem write_transact_peer_absent (st : State) (hFile : Nat) (half : OFC_FS_PIPE_HALF)
    (payload : List Nat) (nOut : Nat)
    (hh : ofc_handle_lock st hFile = some half) (hs : half.sibling = none) :
    OfcFSPipeWriteFile st hFile payload =
      .ret st { ret := false, written := none, lastError := some OFC_ERROR.BROKEN_PIPE } ∧
    OfcFSPipeTransactNamedPipe st hFile payload nOut =
      .ret st { ret := false, nRead := none, bytes := [],
                lastError := some OFC_ERROR.BROKEN_PIPE } := by
  constructor
  · simp [OfcFSPipeWriteFile, hh, hs]
  · simp [OfcFSPipeTransactNamedPipe, hh, hs]

/-- An unconnected server half (the state after one server create) for C4. -/
theorem write_transact_peer_absent_witness :
    OfcFSPipeWriteFile sampleServerOnly 0 [1, 2, 3] =
      .ret sampleServerOnly
        { ret := false, written := none, lastError := some OFC_ERROR.BROKEN_PIPE } ∧
    OfcFSPipeTransactNamedPipe sampleServerOnly 0 [1, 2, 3] 4 =
      .ret sampleServerOnly
        { ret := false, nRead := none, bytes := [],
          lastError := some OFC_ERROR.BROKEN_PIPE } :=
  write_transact_peer_absent sampleServerOnly 0
    { hPipe := some 0, hWaitQ := [], pipe_file := some 0, sibling := none }
    [1, 2, 3] 4 rfl rfl

/-- C5: a Write on a half whose sibling is present returns success with
bytes-written equal to the payload length (0 included); the sibling's queue
is the old queue followed by one record holding the payload with cursor 0 and
the full length unread; the sibling's other fields, every other half (the
writer and its queue among them), every sibling pointer, the entries and the
registry head are as before. -/
theorem write_peer_present (st : State) (hFile sibling : Nat)
    (half peer : OFC_FS_PIPE_HALF) (payload : List Nat)
    (hh : ofc_handle_lock st hFile = some half)
    (hs : half.sibling = some sibling) (hne : sibling ≠ hFile)
    (hp : deref st.halves sibling = some peer) :
    ∃ st1, OfcFSPipeWriteFile st hFile payload =
        .ret st1 { ret := true, written := some payload.length, lastError := none } ∧
      deref st1.halves sibling = some { peer with
        hWaitQ := peer.hWaitQ ++
          [{ len := payload.length, offset := 0, buffer := payload }] } ∧
      ofc_handle_lock st1 hFile = some half ∧
      (∀ x, x ≠ sibling → st1.halves[x]? = st.halves[x]?) ∧
      (∀ x, (deref st1.halves x).map (fun h => h.sibling) =
            (deref st.halves x).map (fun h => h.sibling)) ∧
      st1.halves.length = st.halves.length ∧
      st1.files = st.files ∧ st1.pipes = st.pipes := by
  refine ⟨setQueue st sibling peer (peer.hWaitQ ++
      [{ len := payload.length, offset := 0, buffer := payload }]),
    ?_, ?_, ?_, ?_, ?_, ?_, rfl, rfl⟩
  · simp only [OfcFSPipeWriteFile, hh, hs, hp]
  · simp only [setQueue]
    rw [deref_store_self hp]
  · simp only [setQueue, ofc_handle_lock]
    rw [deref_store_ne _ hne]; exact hh
  · intro x hx
    simp only [setQueue]
    exact getElem?_store_ne _ (Ne.symm hx)
  · intro x
    simp only [setQueue]
    by_cases hx : sibling = x
    · subst hx
      rw [deref_store_self hp, hp]; rfl
    · rw [deref_store_ne _ hx]
  · simp [setQueue]

/-- The connected pair of `sampleConnected`: the client (half 1) writes the
empty payload and the server's queue gains one empty record. -/
theorem write_peer_present_witness :
    ∃ st1, OfcFSPipeWriteFile sampleConnected 1 [] =
        .ret st1 { ret := true, written := some ([] : List Nat).length, lastError := none } ∧
      deref st1.halves 0 = some
        { hPipe := some 0, pipe_file := some 0, sibling := some 1,
          hWaitQ := [] ++ [{ len := ([] : List Nat).length, offset := 0, buffer := [] }] } ∧
      ofc_handle_lock st1 1 = some { hPipe := some 1, hWaitQ := [], pipe_file := some 0,
                                     sibling := some 0 } ∧
      (∀ x, x ≠ 0 → st1.halves[x]? = sampleConnected.halves[x]?) ∧
      (∀ x, (deref st1.halves x).map (fun h => h.sibling) =
            (deref sampleConnected.halves x).map (fun h => h.sibling)) ∧
      st1.halves.length = sampleConnected.halves.length ∧
      st1.files = sampleConnected.files ∧ st1.pipes = sampleConnected.pipes :=
  write_peer_present sampleConnected 1 0
    { hPipe := some 1, hWaitQ := [], pipe_file := some 0, sibling := some 0 }
    { hPipe := some 0, hWaitQ := [], pipe_file := some 0, sibling := some 1 }
    [] rfl rfl (by decide) rfl

end OfcFsPipe

/-! ## Chain lemmas -/

namespace OfcFsPipe

theorem IsSeg_append (files : List (Option OFC_FS_PIPE_FILE)) (a b : List Nat)
    (p q : Option Nat) :
    IsSeg files p (a ++ b) q ↔ ∃ m, IsSeg files p a m ∧ IsSeg files m b q := by
  induction a generalizing p with
  | nil =>
    simp only [List.nil_append, IsSeg]
    constructor
    · intro h; exact ⟨p, rfl, h⟩
    · rintro ⟨m, rfl, h⟩; exact h
  | cons x a ih =>
    simp only [List.cons_append, IsSeg]
    constructor
    · rintro ⟨hp, f, hf, h⟩
      obtain ⟨m, h1, h2⟩ := (ih _).1 h
      exact ⟨m, ⟨hp, f, hf, h1⟩, h2⟩
    · rintro ⟨m, ⟨hp, f, hf, h1⟩, h2⟩
      exact ⟨hp, f, hf, (ih _).2 ⟨m, h1, h2⟩⟩

/-- A walk only reads the `next` fields of the cells it visits. -/
theorem IsSeg_congr {files files1 : List (Option OFC_FS_PIPE_FILE)} {l : List Nat}
    {p q : Option Nat}
    (h : ∀ x ∈ l, (deref files1 x).map (fun f => f.next) =
                  (deref files x).map (fun f => f.next))
    (hs : IsSeg files p l q) : IsSeg files1 p l q := by
  induction l generalizing p with
  | nil => exact hs
  | cons x l ih =>
    obtain ⟨hp, f, hf, hrest⟩ := hs
    have hx := h x (List.mem_cons_self _ _)
    rw [hf] at hx
    cases h1 : deref files1 x with
    | none => rw [h1] at hx; cases hx
    | some f1 =>
      rw [h1] at hx
      have hx : f1.next = f.next := by simpa using hx
      refine ⟨hp, f1, h1, ?_⟩
      rw [hx]
      exact ih (fun y hy => h y (List.mem_cons_of_mem _ hy)) hrest

theorem IsSeg_unique {files : List (Option OFC_FS_PIPE_FILE)} {l1 l2 : List Nat}
    {p : Option Nat} (h1 : IsSeg files p l1 none) (h2 : IsSeg files p l2 none) :
    l1 = l2 := by
  induction l1 generalizing p l2 with
  | nil =>
    cases l2 with
    | nil => rfl
    | cons y l2 =>
      simp only [IsSeg] at h1
      obtain ⟨hp, _⟩ := h2
      rw [h1] at hp; cases hp
  | cons x l1 ih =>
    obtain ⟨hp, f, hf, hr⟩ := h1
    cases l2 with
    | nil =>
      simp only [IsSeg] at h2
      rw [h2] at hp; cases hp
    | cons y l2 =>
      obtain ⟨hp2, f2, hf2, hr2⟩ := h2
      rw [hp] at hp2
      cases hp2
      rw [hf] at hf2
      cases hf2
      rw [ih hr hr2]

theorem IsSeg_mem_lt {files : List (Option OFC_FS_PIPE_FILE)} {l : List Nat}
    {p q : Option Nat} (h : IsSeg files p l q) : ∀ x ∈ l, x < files.length := by
  induction l generalizing p with
  | nil => intro x hx; cases hx
  | cons y l ih =>
    obtain ⟨_, f, hf, hr⟩ := h
    intro x hx
    rcases List.mem_cons.1 hx with rfl | hx
    · exact deref_lt hf
    · exact ih hr x hx

theorem IsSeg_nodup {files : List (Option OFC_FS_PIPE_FILE)} {l : List Nat}
    {p : Option Nat} (h : IsSeg files p l none) : l.Nodup := by
  induction l generalizing p with
  | nil => exact List.nodup_nil
  | cons x t ih =>
    obtain ⟨hp, f, hf, hr⟩ := h
    refine List.nodup_cons.2 ⟨?_, ih hr⟩
    intro hx
    obtain ⟨a, b, hab⟩ := List.append_of_mem hx
    rw [hab] at hr
    obtain ⟨m, _, h2⟩ := (IsSeg_append files a (x :: b) _ _).1 hr
    obtain ⟨_, f2, hf2, hr2⟩ := h2
    rw [hf] at hf2
    cases hf2
    rw [← hab] at hr
    have := IsSeg_unique hr hr2
    have hlen := congrArg List.length this
    rw [hab] at hlen
    simp at hlen
    omega

theorem IsSeg_length_le {files : List (Option OFC_FS_PIPE_FILE)} {l : List Nat}
    {p : Option Nat} (h : IsSeg files p l none) : l.length ≤ files.length := by
  have hnd := IsSeg_nodup h
  have hsub : l.toFinset ⊆ Finset.range files.length := by
    intro x hx
    rw [List.mem_toFinset] at hx
    exact Finset.mem_range.2 (IsSeg_mem_lt h x hx)
  have := Finset.card_le_card hsub
  rwa [List.toFinset_card_of_nodup hnd, Finset.card_range] at this

theorem IsSeg_of_chainFrom {files : List (Option OFC_FS_PIPE_FILE)} {fuel : Nat}
    {p : Option Nat} {l : List Nat} (h : chainFrom files fuel p = some l) :
    IsSeg files p l none := by
  induction fuel generalizing p l with
  | zero => simp [chainFrom] at h
  | succ fuel ih =>
    cases p with
    | none =>
      simp only [chainFrom, Option.some.injEq] at h
      subst h
      rfl
    | some x =>
      simp only [chainFrom] at h
      cases hf : deref files x with
      | none => rw [hf] at h; cases h
      | some f =>
        rw [hf] at h
        simp only at h
        cases hc : chainFrom files fuel f.next with
        | none => rw [hc] at h; cases h
        | some t =>
          rw [hc] at h
          have h : x :: t = l := by simpa using h
          subst h
          exact ⟨rfl, f, hf, ih hc⟩

theorem chainFrom_of_IsSeg {files : List (Option OFC_FS_PIPE_FILE)} {fuel : Nat}
    {p : Option Nat} {l : List Nat} (h : IsSeg files p l none) (hl : l.length < fuel) :
    chainFrom files fuel p = some l := by
  induction l generalizing p fuel with
  | nil =>
    simp only [IsSeg] at h
    subst h
    cases fuel with
    | zero => cases hl
    | succ fuel => rfl
  | cons x t ih =>
    obtain ⟨hp, f, hf, hr⟩ := h
    subst hp
    cases fuel with
    | zero => cases hl
    | succ fuel =>
      simp only [List.length_cons, Nat.add_lt_add_iff_right] at hl
      simp [chainFrom, hf, ih hr hl]

/-- The registry collection is `l` exactly when the chain from `pipes.first`
walks through `l` to the null pointer. -/
theorem registry_eq_some_iff (st : State) (l : List Nat) :
    registry st = some l ↔ IsSeg st.files st.pipes.first l none := by
  constructor
  · exact IsSeg_of_chainFrom
  · intro h
    exact chainFrom_of_IsSeg h (Nat.lt_succ_of_le (IsSeg_length_le h))

end OfcFsPipe

/-! ## Client create -/

namespace OfcFsPipe

theorem findScan_of_IsSeg {files : List (Option OFC_FS_PIPE_FILE)} (name : List Nat)
    {fuel : Nat} {p : Option Nat} {l : List Nat}
    (h : IsSeg files p l none) (hl : l.length < fuel) :
    findScan files name fuel p = some (l.find? (connectable files name)) := by
  induction l generalizing p fuel with
  | nil =>
    simp only [IsSeg] at h
    subst h
    cases fuel with
    | zero => cases hl
    | succ fuel => rfl
  | cons x t ih =>
    obtain ⟨hp, f, hf, hr⟩ := h
    subst hp
    cases fuel with
    | zero => cases hl
    | succ fuel =>
      simp only [List.length_cons, Nat.add_lt_add_iff_right] at hl
      simp only [findScan, hf, List.find?_cons, connectable]
      by_cases hc : f.name = name ∧ f.client = none
      · simp [hc]
      · simp only [hc, if_false, decide_False]
        exact ih hr hl

theorem findScan_some {files : List (Option OFC_FS_PIPE_FILE)} {name : List Nat}
    {fuel : Nat} {q : Option Nat} {p : Nat}
    (h : findScan files name fuel q = some (some p)) :
    ∃ f, deref files p = some f ∧ f.name = name ∧ f.client = none := by
  induction fuel generalizing q with
  | zero => simp [findScan] at h
  | succ fuel ih =>
    cases q with
    | none => simp [findScan] at h
    | some x =>
      simp only [findScan] at h
      cases hf : deref files x with
      | none => rw [hf] at h; cases h
      | some f =>
        rw [hf] at h
        simp only at h
        by_cases hc : f.name = name ∧ f.client = none
        · rw [if_pos hc] at h
          have hxp : x = p := by simpa using h
          subst hxp
          exact ⟨f, hf, hc.1, hc.2⟩
        · rw [if_neg hc] at h
          exact ih h

theorem registry_findScan {st : State} {l : List Nat} (name : List Nat)
    (hl : registry st = some l) :
    findScan st.files name (st.files.length + 1) st.pipes.first =
      some (l.find? (connectable st.files name)) := by
  have h := (registry_eq_some_iff st l).1 hl
  exact findScan_of_IsSeg name h (Nat.lt_succ_of_le (IsSeg_length_le h))

/-- The client path of `OfcFSPipeCreateFile` once the lookup has answered. -/
theorem create_client_unfold (st : State) (name : List Nat)
    (disp : OFC_CREATE_DISPOSITION) (fileOk halfOk : Bool)
    (hd1 : disp ≠ .OFC_CREATE_ALWAYS) (hd2 : disp ≠ .OFC_CREATE_NEW) :
    OfcFSPipeCreateFile st name disp fileOk halfOk =
      match findScan st.files name (st.files.length + 1) st.pipes.first with
      | none => .fault
      | some none =>
        .ret st { ret := none, lastError := some OFC_ERROR.FILE_NOT_FOUND }
      | some (some pipe_file) =>
        if halfOk then
          match deref st.files pipe_file with
          | none => .fault
          | some pf =>
            match pf.server with
            | none => .fault
            | some server =>
              match deref (ofc_malloc st.halves
                  { hPipe := some st.halves.length, hWaitQ := [],
                    pipe_file := some pipe_file, sibling := pf.server }) server with
              | none => .fault
              | some sv =>
                .ret { st with
                    files := store st.files pipe_file
                      { pf with client := some st.halves.length }
                    halves := store (ofc_malloc st.halves
                      { hPipe := some st.halves.length, hWaitQ := [],
                        pipe_file := some pipe_file, sibling := pf.server })
                      server { sv with sibling := some st.halves.length } }
                  { ret := some st.halves.length, lastError := none }
        else
          .ret st { ret := none, lastError := some OFC_ERROR.NOT_ENOUGH_MEMORY } := by
  have hd : ¬ (disp = .OFC_CREATE_ALWAYS ∨ disp = .OFC_CREATE_NEW) := by
    rintro (h | h)
    · exact hd1 h
    · exact hd2 h
  simp only [OfcFSPipeCreateFile, hd, if_false]

/-- The lookup finds no entry: the client create answers `FILE_NOT_FOUND`. -/
theorem client_create_not_found (st : State) (name : List Nat)
    (disp : OFC_CREATE_DISPOSITION) (fileOk halfOk : Bool) (l : List Nat)
    (hd1 : disp ≠ .OFC_CREATE_ALWAYS) (hd2 : disp ≠ .OFC_CREATE_NEW)
    (hl : registry st = some l)
    (hn : l.find? (connectable st.files name) = none) :
    OfcFSPipeCreateFile st name disp fileOk halfOk =
      .ret st { ret := none, lastError := some OFC_ERROR.FILE_NOT_FOUND } := by
  rw [create_client_unfold st name disp fileOk halfOk hd1 hd2, registry_findScan name hl, hn]

/-- The lookup finds `p`: the client create links a new half to it. -/
theorem client_create_links (st : State) (name : List Nat)
    (disp : OFC_CREATE_DISPOSITION) (fileOk : Bool) (l : List Nat)
    (hd1 : disp ≠ .OFC_CREATE_ALWAYS) (hd2 : disp ≠ .OFC_CREATE_NEW)
    (hl : registry st = some l)
    (p : Nat) (pf : OFC_FS_PIPE_FILE) (server : Nat) (sv : OFC_FS_PIPE_HALF)
    (hp : l.find? (connectable st.files name) = some p)
    (hpf : deref st.files p = some pf) (hsrv : pf.server = some server)
    (hsv : deref st.halves server = some sv) :
    OfcFSPipeCreateFile st name disp fileOk true =
      .ret { st with
          files := store st.files p { pf with client := some st.halves.length }
          halves := store (ofc_malloc st.halves
            { hPipe := some st.halves.length, hWaitQ := [],
              pipe_file := some p, sibling := some server })
            server { sv with sibling := some st.halves.length } }
        { ret := some st.halves.length, lastError := none } := by
  have hsv1 : deref (ofc_malloc st.halves
      { hPipe := some st.halves.length, hWaitQ := [],
        pipe_file := some p, sibling := some server }) server = some sv :=
    deref_malloc_old _ hsv
  rw [create_client_unfold st name disp fileOk true hd1 hd2, registry_findScan name hl, hp]
  simp only [if_true, hpf, hsrv, hsv1]

/-- C6: with the registry collection `l` (the chain from `pipes.first`), a
client create (disposition neither create-new nor create-always) answers
`FILE_NOT_FOUND` with the null handle and the state as it was when no entry of
`l` has the requested name and an empty client slot; otherwise, the
allocation succeeding, it links to the first such entry of `l`: that entry's
client slot and the new half's `pipe_file` point at each other. -/
theorem client_create_first_connectable (st : State) (name : List Nat)
    (disp : OFC_CREATE_DISPOSITION) (fileOk halfOk : Bool) (l : List Nat)
    (hd1 : disp ≠ .OFC_CREATE_ALWAYS) (hd2 : disp ≠ .OFC_CREATE_NEW)
    (hl : registry st = some l) :
    (l.find? (connectable st.files name) = none →
      OfcFSPipeCreateFile st name disp fileOk halfOk =
        .ret st { ret := none, lastError := some OFC_ERROR.FILE_NOT_FOUND }) ∧
    (∀ p pf server sv, l.find? (connectable st.files name) = some p →
      deref st.files p = some pf → pf.server = some server →
      deref st.halves server = some sv → halfOk = true →
      ∃ st1, OfcFSPipeCreateFile st name disp fileOk halfOk =
          .ret st1 { ret := some st.halves.length, lastError := none } ∧
        deref st1.files p = some { pf with client := some st.halves.length } ∧
        deref st1.halves st.halves.length =
          some { hPipe := some st.halves.length, hWaitQ := [], pipe_file := some p,
                 sibling := some server }) := by
  constructor
  · exact client_create_not_found st name disp fileOk halfOk l hd1 hd2 hl
  · intro p pf server sv hp hpf hsrv hsv hok
    subst hok
    have hne : st.halves.length ≠ server := Nat.ne_of_gt (deref_lt hsv)
    refine ⟨_, client_create_links st name disp fileOk l hd1 hd2 hl p pf server sv
      hp hpf hsrv hsv, deref_store_self hpf, ?_⟩
    simp only
    rw [deref_store_ne _ (Ne.symm hne), deref_malloc_new]

/-- Two servers named `[1]` and `[2]` wait (entries 0 and 1): a client create
for `[3]` finds nothing, one for `[2]` links to entry 1. -/
theorem client_create_first_connectable_witness :
    registry sampleTwoServers = some [0, 1] ∧
    OfcFSPipeCreateFile sampleTwoServers [3] .OFC_OPEN_EXISTING true true =
      .ret sampleTwoServers { ret := none, lastError := some OFC_ERROR.FILE_NOT_FOUND } ∧
    ∃ st1, OfcFSPipeCreateFile sampleTwoServers [2] .OFC_OPEN_EXISTING true true =
        .ret st1 { ret := some sampleTwoServers.halves.length, lastError := none } ∧
      deref st1.files 1 =
        some { next := none, name := [2], server := some 1,
               client := some sampleTwoServers.halves.length } ∧
      deref st1.halves sampleTwoServers.halves.length =
        some { hPipe := some sampleTwoServers.halves.length, hWaitQ := [],
               pipe_file := some 1, sibling := some 1 } :=
  ⟨by decide,
   (client_create_first_connectable sampleTwoServers [3] .OFC_OPEN_EXISTING true true [0, 1]
      (by decide) (by decide) (by decide)).1 (by decide),
   (client_create_first_connectable sampleTwoServers [2] .OFC_OPEN_EXISTING true true [0, 1]
      (by decide) (by decide) (by decide)).2 1
      { next := none, name := [2], server := some 1, client := none } 1
      { hPipe := some 1, hWaitQ := [], pipe_file := some 1, sibling := none }
      (by decide) rfl rfl rfl rfl⟩

/-- C7: when a create returns a handle `c` (only the client path returns one
in its first step), there are an entry `p` with the requested name and an
empty client slot and its live server half `s` such that afterwards the
entry's client slot is `c`, the new half `c` has an empty queue and sibling
`s`, the server half has sibling `c` and is otherwise as before, and every
other entry, every other half and the registry head are untouched. -/
theorem client_create_postcondition (st st1 : State) (name : List Nat)
    (disp : OFC_CREATE_DISPOSITION) (fileOk halfOk : Bool) (r : CreateResult) (c : Nat)
    (hwf : ∀ q f s, deref st.files q = some f → f.server = some s → s < st.halves.length)
    (hc : OfcFSPipeCreateFile st name disp fileOk halfOk = .ret st1 r)
    (hr : r.ret = some c) :
    ∃ p pf s sv,
      deref st.files p = some pf ∧ pf.name = name ∧ pf.client = none ∧
      pf.server = some s ∧ deref st.halves s = some sv ∧
      c = st.halves.length ∧ s ≠ c ∧ r.lastError = none ∧
      deref st1.files p = some { pf with client := some c } ∧
      deref st1.halves c =
        some { hPipe := some c, hWaitQ := [], pipe_file := some p, sibling := some s } ∧
      deref st1.halves s = some { sv with sibling := some c } ∧
      (∀ q, q ≠ p → st1.files[q]? = st.files[q]?) ∧
      (∀ x, x ≠ s → x ≠ c → st1.halves[x]? = st.halves[x]?) ∧
      st1.pipes = st.pipes ∧ st1.files.length = st.files.length ∧
      st1.halves.length = st.halves.length + 1 := by
  by_cases hd : disp = .OFC_CREATE_ALWAYS ∨ disp = .OFC_CREATE_NEW
  · exfalso
    simp only [OfcFSPipeCreateFile, hd, if_true] at hc
    split at hc
    · split at hc
      · split at hc <;> cases hc
      · cases hc; cases hr
    · cases hc; cases hr
  · have hd1 : disp ≠ .OFC_CREATE_ALWAYS := fun h => hd (Or.inl h)
    have hd2 : disp ≠ .OFC_CREATE_NEW := fun h => hd (Or.inr h)
    rw [create_client_unfold st name disp fileOk halfOk hd1 hd2] at hc
    split at hc
    · cases hc
    · cases hc; cases hr
    · next p hfind =>
      obtain ⟨pf0, hpf0, hname, hclient⟩ := findScan_some hfind
      split at hc
      · rw [hpf0] at hc
        simp only at hc
        split at hc
        · cases hc
        · next s hs =>
          have hslt : s < st.halves.length := hwf p pf0 s hpf0 hs
          have hsne : s ≠ st.halves.length := Nat.ne_of_lt hslt
          have hold : deref (ofc_malloc st.halves
              { hPipe := some st.halves.length, hWaitQ := [],
                pipe_file := some p, sibling := pf0.server }) s = deref st.halves s := by
            rw [deref_malloc]; simp [hsne]
          rw [hold] at hc
          split at hc
          · cases hc
          · next sv hsv =>
            cases hc
            simp only [Option.some.injEq] at hr
            subst hr
            have hsv1 : deref (ofc_malloc st.halves
                { hPipe := some st.halves.length, hWaitQ := [],
                  pipe_file := some p, sibling := pf0.server }) s = some sv := by
              rw [hold]; exact hsv
            refine ⟨p, pf0, s, sv, hpf0, hname, hclient, hs, hsv, rfl, hsne, rfl,
              deref_store_self hpf0, ?_, deref_store_self hsv1, ?_, ?_, rfl, ?_, ?_⟩
            · simp only
              rw [deref_store_ne _ hsne, deref_malloc_new, hs]
            · intro q hq
              exact getElem?_store_ne _ (Ne.symm hq)
            · intro x hx hxc
              simp only
              rw [getElem?_store_ne _ (Ne.symm hx)]
              unfold ofc_malloc
              rw [List.getElem?_append]
              by_cases hxl : x < st.halves.length
              · simp [hxl]
              · have h1 : st.halves[x]? = none := List.getElem?_eq_none (by omega)
                obtain ⟨k, hk⟩ : ∃ k, x - st.halves.length = k + 1 :=
                  ⟨x - st.halves.length - 1, by omega⟩
                simp [hxl, h1, hk]
            · simp
            · simp
      · cases hc; cases hr

/-- A client create for `[1]` on `sampleServerOnly` returns handle 1 and yields
`sampleConnected`. -/
theorem client_create_postcondition_witness :
    ∃ p pf s sv,
      deref sampleServerOnly.files p = some pf ∧ pf.name = [1] ∧ pf.client = none ∧
      pf.server = some s ∧ deref sampleServerOnly.halves s = some sv ∧
      1 = sampleServerOnly.halves.length ∧ s ≠ 1 ∧
      ({ ret := some 1, lastError := none } : CreateResult).lastError = none ∧
      deref sampleConnected.files p = some { pf with client := some 1 } ∧
      deref sampleConnected.halves 1 =
        some { hPipe := some 1, hWaitQ := [], pipe_file := some p, sibling := some s } ∧
      deref sampleConnected.halves s = some { sv with sibling := some 1 } ∧
      (∀ q, q ≠ p → sampleConnected.files[q]? = sampleServerOnly.files[q]?) ∧
      (∀ x, x ≠ s → x ≠ 1 → sampleConnected.halves[x]? = sampleServerOnly.halves[x]?) ∧
      sampleConnected.pipes = sampleServerOnly.pipes ∧
      sampleConnected.files.length = sampleServerOnly.files.length ∧
      sampleConnected.halves.length = sampleServerOnly.halves.length + 1 :=
  client_create_postcondition sampleServerOnly sampleConnected [1] .OFC_OPEN_EXISTING
    true true { ret := some 1, lastError := none } 1
    (by
      intro q f s hq hs
      match q, hq with
      | 0, hq =>
        have hf : f = { next := none, name := [1], server := some 0, client := none } := by
          simpa [sampleServerOnly, deref] using hq.symm
        subst hf
        have : s = 0 := by simpa using hs.symm
        subst this
        decide
      | q + 1, hq => simp [sampleServerOnly, deref] at hq)
    (by decide) rfl

end OfcFsPipe

/-! ## Registration and the race of two clients -/

namespace OfcFsPipe

/-- Writing a `next` field leaves name, server and client of every entry, and
the liveness of every cell, as they were. -/
theorem deref_store_next (files : List (Option OFC_FS_PIPE_FILE)) (p : Nat)
    (f : OFC_FS_PIPE_FILE) (n : Option Nat) (hf : deref files p = some f) (q : Nat) :
    (deref (store files p { f with next := n }) q).map
        (fun e => (e.name, e.server, e.client)) =
      (deref files q).map (fun e => (e.name, e.server, e.client)) := by
  by_cases hpq : p = q
  · subst hpq
    rw [deref_store_self hf, hf]; rfl
  · rw [deref_store_ne _ hpq]

theorem pipe_enqueue_internal_frame {st st1 : State} {pipe_file : Nat}
    (h : pipe_enqueue_internal st pipe_file = some st1) :
    st1.halves = st.halves ∧ st1.files.length = st.files.length ∧
    ∀ q, (deref st1.files q).map (fun e => (e.name, e.server, e.client)) =
         (deref st.files q).map (fun e => (e.name, e.server, e.client)) := by
  unfold pipe_enqueue_internal at h
  split at h
  · cases h
  · next pf hpf =>
    simp only at h
    split at h
    · cases h
      refine ⟨rfl, by simp, fun q => deref_store_next _ _ _ _ hpf q⟩
    · next prev hprev =>
      split at h
      · cases h
      · next pv hpv =>
        cases h
        refine ⟨rfl, by simp, fun q => ?_⟩
        simp only
        rw [deref_store_next _ _ _ _ hpv q, deref_store_next _ _ _ _ hpf q]

/-- A create never writes a client slot that is occupied: an entry whose
client slot is set keeps it through any create. -/
theorem create_keeps_client (st st1 : State) (name : List Nat)
    (disp : OFC_CREATE_DISPOSITION) (fileOk halfOk : Bool)
    (hc : (OfcFSPipeCreateFile st name disp fileOk halfOk).state = some st1)
    (q : Nat) (f : OFC_FS_PIPE_FILE) (hq : deref st.files q = some f)
    (hocc : f.client ≠ none) :
    ∃ f1, deref st1.files q = some f1 ∧ f1.client = f.client := by
  by_cases hd : disp = .OFC_CREATE_ALWAYS ∨ disp = .OFC_CREATE_NEW
  · simp only [OfcFSPipeCreateFile, hd, if_true] at hc
    split at hc
    · split at hc
      · split at hc
        · cases hc
        · next st2 henq =>
          simp only [Step.state, Option.some.injEq] at hc
          subst hc
          have hfr := (pipe_enqueue_internal_frame henq).2.2 q
          simp only at hfr
          rw [deref_malloc_old _ hq] at hfr
          cases h2 : deref st2.files q with
          | none => rw [h2] at hfr; cases hfr
          | some f1 =>
            rw [h2] at hfr
            refine ⟨f1, rfl, ?_⟩
            simpa using congrArg (fun o => o.map (fun t => t.2.2)) hfr
      · simp only [Step.state, Option.some.injEq] at hc
        subst hc; exact ⟨f, hq, rfl⟩
    · simp only [Step.state, Option.some.injEq] at hc
      subst hc; exact ⟨f, hq, rfl⟩
  · have hd1 : disp ≠ .OFC_CREATE_ALWAYS := fun h => hd (Or.inl h)
    have hd2 : disp ≠ .OFC_CREATE_NEW := fun h => hd (Or.inr h)
    rw [create_client_unfold st name disp fileOk halfOk hd1 hd2] at hc
    split at hc
    · cases hc
    · simp only [Step.state, Option.some.injEq] at hc
      subst hc; exact ⟨f, hq, rfl⟩
    · next p hfind =>
      obtain ⟨pf0, hpf0, _, hclient⟩ := findScan_some hfind
      have hpq : p ≠ q := by
        intro h
        subst h
        rw [hpf0] at hq
        cases hq
        exact hocc hclient
      split at hc
      · rw [hpf0] at hc
        simp only at hc
        split at hc
        · cases hc
        · split at hc
          · cases hc
          · simp only [Step.state, Option.some.injEq] at hc
            subst hc
            refine ⟨f, ?_, rfl⟩
            simp only
            rw [deref_store_ne _ hpq]; exact hq
      · simp only [Step.state, Option.some.injEq] at hc
        subst hc; exact ⟨f, hq, rfl⟩

theorem find?_of_filter_singleton {l : List Nat} {P : Nat → Bool} {p : Nat}
    (h : l.filter P = [p]) : l.find? P = some p := by
  induction l with
  | nil => simp at h
  | cons x t ih =>
    rw [List.filter_cons] at h
    rw [List.find?_cons]
    cases hx : P x with
    | true =>
      rw [hx] at h
      simp only [if_true, List.cons.injEq] at h
      rw [h.1]
    | false =>
      rw [hx] at h
      simp only [Bool.false_eq_true, if_false] at h
      exact ih h

/-- C8: with exactly one entry `p` of the registry collection connectable for
`name`, the first of two successive client creates for `name` returns a
handle and links to the server of `p`, and the second returns the null handle
with `FILE_NOT_FOUND`; and through any create an occupied client slot keeps
its value. -/
theorem client_create_one_winner :
    (∀ (st : State) (name : List Nat) (d1 d2 : OFC_CREATE_DISPOSITION)
        (a1 a2 b2 : Bool) (l : List Nat) (p : Nat) (pf : OFC_FS_PIPE_FILE)
        (server : Nat) (sv : OFC_FS_PIPE_HALF),
      d1 ≠ .OFC_CREATE_ALWAYS → d1 ≠ .OFC_CREATE_NEW →
      d2 ≠ .OFC_CREATE_ALWAYS → d2 ≠ .OFC_CREATE_NEW →
      registry st = some l → l.filter (connectable st.files name) = [p] →
      deref st.files p = some pf → pf.server = some server →
      deref st.halves server = some sv →
      ∃ st1, OfcFSPipeCreateFile st name d1 a1 true =
          .ret st1 { ret := some st.halves.length, lastError := none } ∧
        deref st1.files p = some { pf with client := some st.halves.length } ∧
        deref st1.halves st.halves.length =
          some { hPipe := some st.halves.length, hWaitQ := [], pipe_file := some p,
                 sibling := some server } ∧
        OfcFSPipeCreateFile st1 name d2 a2 b2 =
          .ret st1 { ret := none, lastError := some OFC_ERROR.FILE_NOT_FOUND }) ∧
    (∀ (st st1 : State) (name : List Nat) (disp : OFC_CREATE_DISPOSITION)
        (fileOk halfOk : Bool) (q : Nat) (f : OFC_FS_PIPE_FILE),
      (OfcFSPipeCreateFile st name disp fileOk halfOk).state = some st1 →
      deref st.files q = some f → f.client ≠ none →
      ∃ f1, deref st1.files q = some f1 ∧ f1.client = f.client) := by
  constructor
  · intro st name d1 d2 a1 a2 b2 l p pf server sv h11 h12 h21 h22 hl hfil hpf hsrv hsv
    have hfind := find?_of_filter_singleton hfil
    have hc1 := client_create_links st name d1 a1 l h11 h12 hl p pf server sv
      hfind hpf hsrv hsv
    have hne : st.halves.length ≠ server := Nat.ne_of_gt (deref_lt hsv)
    have hf1 : deref (store st.files p { pf with client := some st.halves.length }) p =
        some { pf with client := some st.halves.length } := deref_store_self hpf
    refine ⟨_, hc1, hf1, ?_, ?_⟩
    · simp only
      rw [deref_store_ne _ (Ne.symm hne), deref_malloc_new]
    generalize hst1 : ({ st with
          files := store st.files p { pf with client := some st.halves.length }
          halves := store (ofc_malloc st.halves
            { hPipe := some st.halves.length, hWaitQ := [],
              pipe_file := some p, sibling := some server })
            server { sv with sibling := some st.halves.length } } : State) = st1
    have hf1 : deref st1.files p = some { pf with client := some st.halves.length } := by
      rw [← hst1]; exact hf1
    have hfiles : st1.files = store st.files p { pf with client := some st.halves.length } := by
      rw [← hst1]
    have hpipes : st1.pipes = st.pipes := by rw [← hst1]
    -- the chain is the same
    have hseg := (registry_eq_some_iff st l).1 hl
    have hseg1 : IsSeg st1.files st1.pipes.first l none := by
      rw [hpipes]
      refine IsSeg_congr (fun x _ => ?_) hseg
      rw [hfiles]
      by_cases hx : p = x
      · subst hx
        rw [deref_store_self hpf, hpf]; rfl
      · rw [deref_store_ne _ hx]
    have hl1 : registry st1 = some l := (registry_eq_some_iff st1 l).2 hseg1
    -- no entry is connectable any more
    have hnone : l.find? (connectable st1.files name) = none := by
      rw [List.find?_eq_none]
      intro x hx
      by_cases hxp : p = x
      · subst hxp
        simp [connectable, hf1]
      · have hxf : x ∉ l.filter (connectable st.files name) := by
          rw [hfil]; simpa using Ne.symm hxp
        have hnc : ¬ connectable st.files name x = true := fun hcx =>
          hxf (List.mem_filter.2 ⟨hx, hcx⟩)
        have : connectable st1.files name x = connectable st.files name x := by
          unfold connectable
          rw [hfiles, deref_store_ne _ hxp]
        rw [this]; exact hnc
    exact client_create_not_found st1 name d2 a2 b2 l h21 h22 hl1 hnone
  · intro st st1 name disp fileOk halfOk q f hc hq hocc
    exact create_keeps_client st st1 name disp fileOk halfOk hc q f hq hocc

/-- Two client creates for `[1]` on `sampleServerOnly`: the first returns
handle 1, the second `FILE_NOT_FOUND`. -/
theorem client_create_one_winner_witness :
    ∃ st1, OfcFSPipeCreateFile sampleServerOnly [1] .OFC_OPEN_EXISTING true true =
        .ret st1 { ret := some sampleServerOnly.halves.length, lastError := none } ∧
      deref st1.files 0 =
        some { next := none, name := [1], server := some 0,
               client := some sampleServerOnly.halves.length } ∧
      deref st1.halves sampleServerOnly.halves.length =
        some { hPipe := some sampleServerOnly.halves.length, hWaitQ := [],
               pipe_file := some 0, sibling := some 0 } ∧
      OfcFSPipeCreateFile st1 [1] .OFC_OPEN_ALWAYS true true =
        .ret st1 { ret := none, lastError := some OFC_ERROR.FILE_NOT_FOUND } :=
  client_create_one_winner.1 sampleServerOnly [1] .OFC_OPEN_EXISTING .OFC_OPEN_ALWAYS
    true true true [0] 0 { next := none, name := [1], server := some 0, client := none } 0
    { hPipe := some 0, hWaitQ := [], pipe_file := some 0, sibling := none }
    (by decide) (by decide) (by decide) (by decide) (by decide) (by decide) rfl rfl rfl

end OfcFsPipe

/-! ## Unlinking an entry -/

namespace OfcFsPipe

theorem unlinkScan_found {files : List (Option OFC_FS_PIPE_FILE)} {pf : Nat}
    {b : List Nat} {a : List Nat} :
    ∀ {fuel : Nat} (prev : Option Nat) {p : Option Nat},
      IsSeg files p (a ++ pf :: b) none → pf ∉ a → (a ++ pf :: b).length < fuel →
      unlinkScan files pf fuel prev p = some (true, (a.getLast?).or prev) := by
  induction a with
  | nil =>
    intro fuel prev p h _ hl
    obtain ⟨hp, _⟩ := h
    subst hp
    cases fuel with
    | zero => cases hl
    | succ fuel => simp [unlinkScan]
  | cons x a ih =>
    intro fuel prev p h hna hl
    obtain ⟨hp, f, hf, hr⟩ := h
    subst hp
    have hx : x ≠ pf := fun e => hna (e ▸ List.mem_cons_self _ _)
    have hna1 : pf ∉ a := fun e => hna (List.mem_cons_of_mem _ e)
    cases fuel with
    | zero => cases hl
    | succ fuel =>
      simp only [List.cons_append, List.length_cons, Nat.add_lt_add_iff_right] at hl
      simp only [unlinkScan, hx, if_false, hf]
      rw [ih _ hr hna1 hl, List.getLast?_cons]
      cases a.getLast? <;> simp

theorem unlinkScan_not_found {files : List (Option OFC_FS_PIPE_FILE)} {pf : Nat}
    {l : List Nat} :
    ∀ {fuel : Nat} (prev : Option Nat) {p : Option Nat},
      IsSeg files p l none → pf ∉ l → l.length < fuel →
      ∃ pv, unlinkScan files pf fuel prev p = some (false, pv) := by
  induction l with
  | nil =>
    intro fuel prev p h _ hl
    simp only [IsSeg] at h
    subst h
    cases fuel with
    | zero => cases hl
    | succ fuel => exact ⟨prev, rfl⟩
  | cons x l ih =>
    intro fuel prev p h hna hl
    obtain ⟨hp, f, hf, hr⟩ := h
    subst hp
    have hx : x ≠ pf := fun e => hna (e ▸ List.mem_cons_self _ _)
    have hna1 : pf ∉ l := fun e => hna (List.mem_cons_of_mem _ e)
    cases fuel with
    | zero => cases hl
    | succ fuel =>
      simp only [List.length_cons, Nat.add_lt_add_iff_right] at hl
      simp only [unlinkScan, hx, if_false, hf]
      exact ih _ hr hna1 hl

/-- `pipe_unlink_internal` on a well-formed chain `l`: it returns, the chain
from the new `pipes.first` is `l` without `pipe_file`, the halves are
untouched and every entry keeps its name, server and client. -/
theorem pipe_unlink_internal_chain (st : State) (pipe_file : Nat) {l : List Nat}
    (hl : IsSeg st.files st.pipes.first l none) :
    ∃ st1, pipe_unlink_internal st pipe_file = some st1 ∧
      IsSeg st1.files st1.pipes.first (l.erase pipe_file) none ∧
      st1.halves = st.halves ∧ st1.files.length = st.files.length ∧
      ∀ q, (deref st1.files q).map (fun e => (e.name, e.server, e.client)) =
           (deref st.files q).map (fun e => (e.name, e.server, e.client)) := by
  have hfuel : l.length < st.files.length + 1 := Nat.lt_succ_of_le (IsSeg_length_le hl)
  have hnd := IsSeg_nodup hl
  by_cases hmem : pipe_file ∈ l
  · obtain ⟨a, b, hab⟩ := List.append_of_mem hmem
    subst hab
    have hnd2 := List.nodup_append.1 hnd
    have hna : pipe_file ∉ a := fun h => hnd2.2.2 h (List.mem_cons_self _ _)
    have hnb : pipe_file ∉ b := (List.nodup_cons.1 hnd2.2.1).1
    have hscan := unlinkScan_found none hl hna hfuel
    have herase : (a ++ pipe_file :: b).erase pipe_file = a ++ b := by
      rw [List.erase_append_right _ hna, List.erase_cons_head]
    rw [herase]
    obtain ⟨m, hsa, hsb⟩ := (IsSeg_append _ a (pipe_file :: b) _ _).1 hl
    obtain ⟨hm, f, hf, hrb⟩ := hsb
    subst hm
    rcases List.eq_nil_or_concat a with rfl | ⟨a1, y, hcat⟩
    · -- the entry is the head
      simp only [IsSeg] at hsa
      simp only [List.getLast?_nil, Option.or] at hscan
      by_cases hn : f.next = none
      · refine ⟨{ st with pipes := { first := f.next, last := none } }, ?_, hrb, rfl, rfl,
          fun _ => rfl⟩
        simp only [pipe_unlink_internal, hscan, hf, hn, if_true]
      · refine ⟨{ st with pipes := { st.pipes with first := f.next } }, ?_, hrb, rfl, rfl,
          fun _ => rfl⟩
        simp only [pipe_unlink_internal, hscan, hf, hn, if_false]
    · -- the entry follows `y`
      rw [List.concat_eq_append] at hcat
      subst hcat
      obtain ⟨m2, hsa1, hsy⟩ := (IsSeg_append _ a1 [y] _ _).1 hsa
      obtain ⟨hm2, pv, hpv, hnext⟩ := hsy
      subst hm2
      simp only [IsSeg] at hnext
      have hscan2 : unlinkScan st.files pipe_file (st.files.length + 1) none st.pipes.first
          = some (true, some y) := by
        rw [hscan, List.getLast?_concat]; rfl
      have hy1 : y ∉ a1 := by
        have := (List.nodup_append.1 hnd2.1).2.2
        intro h; exact this h (List.mem_singleton_self y)
      have hyb : y ∉ b := by
        intro h
        exact hnd2.2.2 (List.mem_append_right _ (List.mem_singleton_self y))
          (List.mem_cons_of_mem _ h)
      have hcongr : ∀ x, x ≠ y →
          (deref (store st.files y { pv with next := f.next }) x).map (fun e => e.next) =
            (deref st.files x).map (fun e => e.next) := by
        intro x hx
        rw [deref_store_ne _ (Ne.symm hx)]
      have hseg1 : IsSeg (store st.files y { pv with next := f.next }) st.pipes.first
          ((a1 ++ [y]) ++ b) none := by
        rw [IsSeg_append]
        refine ⟨f.next, ?_, ?_⟩
        · rw [IsSeg_append]
          refine ⟨some y, ?_, rfl, _, deref_store_self hpv, rfl⟩
          exact IsSeg_congr (fun x hx => hcongr x (fun e => hy1 (e ▸ hx))) hsa1
        · exact IsSeg_congr (fun x hx => hcongr x (fun e => hyb (e ▸ hx))) hrb
      by_cases hn : f.next = none
      · refine ⟨{ st with files := store st.files y { pv with next := f.next }
                          pipes := { st.pipes with last := none } }, ?_, hseg1, rfl,
          by simp, fun q => deref_store_next _ _ _ _ hpv q⟩
        simp only [pipe_unlink_internal, hscan2, hf, hpv, hn, if_true]
      · refine ⟨{ st with files := store st.files y { pv with next := f.next } }, ?_,
          hseg1, rfl, by simp, fun q => deref_store_next _ _ _ _ hpv q⟩
        simp only [pipe_unlink_internal, hscan2, hf, hpv, hn, if_false]
  · obtain ⟨pv, hscan⟩ := unlinkScan_not_found none hl hmem hfuel
    refine ⟨st, ?_, ?_, rfl, rfl, fun _ => rfl⟩
    · simp only [pipe_unlink_internal, hscan]
    · rw [List.erase_of_not_mem hmem]; exact hl

end OfcFsPipe

/-! ## Close and the registry -/

namespace OfcFsPipe

/-- Close of a half whose sibling is present: the state afterwards. -/
theorem close_peer_present_eq (st : State) (hFile s : Nat) (half peer : OFC_FS_PIPE_HALF)
    (hh : ofc_handle_lock st hFile = some half) (hs : half.sibling = some s)
    (hp : deref st.halves s = some peer) :
    ∃ peer1, deref (store st.halves hFile
        { half with hWaitQ := drain half.hWaitQ, hPipe := none }) s = some peer1 ∧
      OfcFSPipeCloseHandle st hFile =
        .ret { st with halves := ofc_free (store (store st.halves hFile
            { half with hWaitQ := drain half.hWaitQ, hPipe := none }) s
            { peer1 with sibling := none }) hFile } true := by
  have h1 : ∃ peer1, deref (store st.halves hFile
      { half with hWaitQ := drain half.hWaitQ, hPipe := none }) s = some peer1 := by
    rw [deref_store]
    by_cases hx : hFile = s
    · simp [hx, deref_lt hp]
    · simp [hx, hp]
  obtain ⟨peer1, hp1⟩ := h1
  refine ⟨peer1, hp1, ?_⟩
  rw [hs] at hp1
  simp only [OfcFSPipeCloseHandle, hh, hs, hp1]

end OfcFsPipe

/-! ## The linkage invariant -/

namespace OfcFsPipe

theorem map_eq_some_left {α β : Type} {g : α → β} {x y : Option α} {u : α}
    (h : x.map g = y.map g) (hx : x = some u) : ∃ v, y = some v ∧ g v = g u := by
  subst hx
  cases y with
  | none => cases h
  | some v => exact ⟨v, rfl, by simpa using h.symm⟩

/-- The invariant reads the halves through their `sibling` and `pipe_file`
fields and the entries through name, server and client; it survives any
change that keeps those and frees entries. -/
theorem LinkInv.transfer {st st1 : State} (hinv : LinkInv st)
    (hlen : st1.halves.length = st.halves.length)
    (hhalves : ∀ a, (deref st1.halves a).map (fun h => (h.sibling, h.pipe_file)) =
                    (deref st.halves a).map (fun h => (h.sibling, h.pipe_file)))
    (hfiles : ∀ p f1, deref st1.files p = some f1 →
      ∃ f, deref st.files p = some f ∧ f.server = f1.server ∧ f.client = f1.client) :
    LinkInv st1 := by
  constructor
  · intro a ha1 b h1 hsib
    obtain ⟨ha, h0, hg⟩ := map_eq_some_left (hhalves a) h1
    have hg : ha.sibling = ha1.sibling ∧ ha.pipe_file = ha1.pipe_file := by simpa using hg
    obtain ⟨hne, hb, hb0, hbs⟩ := hinv.sibling_back a ha b h0 (hg.1.trans hsib)
    obtain ⟨hb1, hb10, hbg⟩ := map_eq_some_left (hhalves b).symm hb0
    have hbg : hb1.sibling = hb.sibling ∧ hb1.pipe_file = hb.pipe_file := by simpa using hbg
    exact ⟨hne, hb1, hb10, hbg.1.trans hbs⟩
  · intro p f1 s h1 hsrv
    obtain ⟨f, h0, hfs, hfc⟩ := hfiles p f1 h1
    obtain ⟨hlt, hown⟩ := hinv.server_owned p f s h0 (hfs.trans hsrv)
    refine ⟨hlen ▸ hlt, ?_⟩
    intro hs1 hs10
    obtain ⟨hs, hs0, hg⟩ := map_eq_some_left (hhalves s) hs10
    have hg : hs.sibling = hs1.sibling ∧ hs.pipe_file = hs1.pipe_file := by simpa using hg
    obtain ⟨hpf, hsn⟩ := hown hs hs0
    exact ⟨hg.2.symm.trans hpf, fun hc => hg.1.symm.trans (hsn (hfc.trans hc))⟩

theorem LinkInv.startup : LinkInv OfcFSPipeStartup := by
  constructor
  · intro a ha b h
    simp [OfcFSPipeStartup, deref] at h
  · intro p f s h
    simp [OfcFSPipeStartup, deref] at h

/-- Replacing the queue of a live half keeps the invariant. -/
theorem LinkInv.setQueue {st : State} (hinv : LinkInv st) {x : Nat}
    {hx : OFC_FS_PIPE_HALF} (h : deref st.halves x = some hx)
    (q : List OFC_FS_PIPE_DATA) : LinkInv (setQueue st x hx q) := by
  refine hinv.transfer (by simp [OfcFsPipe.setQueue]) (fun a => ?_)
    (fun p f1 hp => ⟨f1, hp, rfl, rfl⟩)
  simp only [OfcFsPipe.setQueue]
  by_cases hxa : x = a
  · subst hxa
    rw [deref_store_self h, h]; rfl
  · rw [deref_store_ne _ hxa]

end OfcFsPipe

/-! ## The invariant along a run -/

namespace OfcFsPipe

theorem LinkInv.write {st st1 : State} (hinv : LinkInv st) {hFile : Nat} {buf : List Nat}
    (h : (OfcFSPipeWriteFile st hFile buf).state = some st1) : LinkInv st1 := by
  unfold OfcFSPipeWriteFile at h
  split at h
  · cases h; exact hinv
  · split at h
    · split at h
      · cases h
      · next peer hp =>
        cases h
        exact hinv.setQueue hp _
    · cases h; exact hinv

theorem LinkInv.read {st st1 : State} (hinv : LinkInv st) {hFile n : Nat}
    (h : (OfcFSPipeReadFile st hFile n).state = some st1) : LinkInv st1 := by
  unfold OfcFSPipeReadFile at h
  split at h
  · cases h; exact hinv
  · next half hh =>
    split at h
    · split at h <;> (cases h; exact hinv)
    · cases h
      exact hinv.setQueue hh _

theorem LinkInv.transactWake {st st1 : State} (hinv : LinkInv st) {hFile n : Nat}
    (h : (OfcFSPipeTransactNamedPipe_wait st hFile n).state = some st1) : LinkInv st1 := by
  unfold OfcFSPipeTransactNamedPipe_wait at h
  split at h
  · cases h
  · next half hh =>
    split at h
    · cases h; exact hinv
    · cases h
      exact hinv.setQueue hh _

theorem LinkInv.transact {st st1 : State} (hinv : LinkInv st) {hFile n : Nat}
    {buf : List Nat}
    (h : (OfcFSPipeTransactNamedPipe st hFile buf n).state = some st1) : LinkInv st1 := by
  unfold OfcFSPipeTransactNamedPipe at h
  split at h
  · cases h; exact hinv
  · split at h
    · split at h
      · cases h
      · next peer hp =>
        exact (hinv.setQueue hp _).transactWake h
    · cases h; exact hinv

/-- Freeing a half that has no sibling keeps the invariant. -/
theorem LinkInv.free_lonely {st : State} (hinv : LinkInv st) {hFile : Nat}
    {half : OFC_FS_PIPE_HALF} (hh : deref st.halves hFile = some half)
    (hs : half.sibling = none) (files1 : List (Option OFC_FS_PIPE_FILE))
    (pipes1 : OFC_PIPES)
    (hfiles : ∀ p f1, deref files1 p = some f1 →
      ∃ f, deref st.files p = some f ∧ f.server = f1.server ∧ f.client = f1.client) :
    LinkInv { files := files1, halves := ofc_free st.halves hFile, pipes := pipes1 } := by
  constructor
  · intro a ha b h1 hsib
    simp only at h1
    rw [deref_free] at h1
    by_cases hxa : hFile = a
    · simp [hxa] at h1
    · simp only [hxa, if_false] at h1
      obtain ⟨hne, hb, hb0, hbs⟩ := hinv.sibling_back a ha b h1 hsib
      refine ⟨hne, hb, ?_, hbs⟩
      simp only
      rw [deref_free_ne]
      · exact hb0
      · intro e
        subst e
        rw [hh] at hb0
        cases hb0
        rw [hs] at hbs
        cases hbs
  · intro p f1 s h1 hsrv
    obtain ⟨f, h0, hfs, hfc⟩ := hfiles p f1 h1
    obtain ⟨hlt, hown⟩ := hinv.server_owned p f s h0 (hfs.trans hsrv)
    refine ⟨by simpa using hlt, ?_⟩
    intro hs1 hs10
    simp only at hs10
    rw [deref_free] at hs10
    by_cases hxa : hFile = s
    · simp [hxa] at hs10
    · simp only [hxa, if_false] at hs10
      obtain ⟨hpf, hsn⟩ := hown hs1 hs10
      exact ⟨hpf, fun hc => hsn (hfc.trans hc)⟩

theorem LinkInv.close {st st1 : State} (hinv : LinkInv st) {hFile : Nat}
    (h : (OfcFSPipeCloseHandle st hFile).state = some st1) : LinkInv st1 := by
  cases hh : ofc_handle_lock st hFile with
  | none =>
    simp only [OfcFSPipeCloseHandle, hh, Step.state, Option.some.injEq] at h
    subst h; exact hinv
  | some half =>
    have hh0 : deref st.halves hFile = some half := hh
    cases hs : half.sibling with
    | some s =>
      obtain ⟨hne, peer, hp, hps⟩ := hinv.sibling_back hFile half s hh0 hs
      obtain ⟨peer1, hp1, hc⟩ := close_peer_present_eq st hFile s half peer hh hs hp
      rw [deref_store_ne _ (Ne.symm hne), hp] at hp1
      cases hp1
      rw [hc] at h
      simp only [Step.state, Option.some.injEq] at h
      subst h
      -- the halves afterwards, cell by cell
      have hcell : ∀ a, deref (ofc_free (store (store st.halves hFile
            { half with hWaitQ := drain half.hWaitQ, hPipe := none }) s
            { peer with sibling := none }) hFile) a =
          if a = hFile then none
          else if a = s then some { peer with sibling := none }
          else deref st.halves a := by
        intro a
        rw [deref_free]
        by_cases ha : hFile = a
        · simp [ha]
        · have ha2 : ¬ a = hFile := fun e => ha e.symm
          simp only [ha, ha2, if_false]
          rw [deref_store]
          by_cases hsa : s = a
          · subst hsa
            have hlt := deref_lt hp
            simp [hlt]
          · have hsa2 : ¬ a = s := fun e => hsa e.symm
            simp only [hsa, hsa2, if_false]
            rw [deref_store_ne _ ha]
      constructor
      · intro a ha b h1 hsib
        simp only at h1
        rw [hcell] at h1
        by_cases ha1 : a = hFile
        · simp [ha1] at h1
        · by_cases ha2 : a = s
          · rw [ha2] at h1
            simp only [hne, if_false, if_true, Option.some.injEq] at h1
            subst h1
            cases hsib
          · simp only [ha1, ha2, if_false] at h1
            obtain ⟨hne2, hb, hb0, hbs⟩ := hinv.sibling_back a ha b h1 hsib
            have hb1 : b ≠ hFile := by
              intro e
              subst e
              rw [hh0] at hb0
              cases hb0
              rw [hs] at hbs
              exact ha2 (Option.some.inj hbs).symm
            have hb2 : b ≠ s := by
              intro e
              subst e
              rw [hp] at hb0
              cases hb0
              rw [hps] at hbs
              exact ha1 (Option.some.inj hbs).symm
            refine ⟨hne2, hb, ?_, hbs⟩
            simp only
            rw [hcell]
            simp [hb1, hb2, hb0]
      · intro p f s2 h1 hsrv
        obtain ⟨hlt, hown⟩ := hinv.server_owned p f s2 h1 hsrv
        refine ⟨by simpa using hlt, ?_⟩
        intro hs1 hs10
        simp only at hs10
        rw [hcell] at hs10
        by_cases hx1 : s2 = hFile
        · simp [hx1] at hs10
        · by_cases hx2 : s2 = s
          · rw [hx2] at hs10
            simp only [hne, if_false, if_true, Option.some.injEq] at hs10
            subst hs10
            rw [hx2] at hown
            obtain ⟨hpf, _⟩ := hown peer hp
            exact ⟨hpf, fun _ => rfl⟩
          · simp only [hx1, hx2, if_false] at hs10
            exact hown hs1 hs10
    | none =>
      cases hpf : half.pipe_file with
      | none =>
        simp only [OfcFSPipeCloseHandle, hh, hs, hpf, Step.state, Option.some.injEq] at h
        subst h
        rw [free_store]
        exact hinv.free_lonely hh0 hs _ _ (fun p f1 hp => ⟨f1, hp, rfl, rfl⟩)
      | some pipe_file =>
        simp only [OfcFSPipeCloseHandle, hh, hs, hpf] at h
        split at h
        · cases h
        · next st2 hun =>
          split at h
          · cases h
          · simp only [Step.state, Option.some.injEq] at h
            subst h
            -- what `pipe_unlink_internal` leaves
            have hfr : st2.halves = store st.halves hFile
                  { half with hWaitQ := drain half.hWaitQ, hPipe := none,
                              pipe_file := some pipe_file, sibling := none } ∧
                ∀ q, (deref st2.files q).map (fun e => (e.name, e.server, e.client)) =
                     (deref st.files q).map (fun e => (e.name, e.server, e.client)) := by
              unfold pipe_unlink_internal at hun
              simp only at hun
              split at hun
              · cases hun
              · cases hun
                exact ⟨rfl, fun _ => rfl⟩
              · split at hun
                · cases hun
                · next pf hpf0 =>
                  split at hun
                  · cases hun
                  · next st3 hst3 =>
                    have h3 : st3.halves = store st.halves hFile
                          { half with hWaitQ := drain half.hWaitQ, hPipe := none,
                                      pipe_file := some pipe_file, sibling := none } ∧
                        ∀ q, (deref st3.files q).map (fun e => (e.name, e.server, e.client)) =
                          (deref st.files q).map (fun e => (e.name, e.server, e.client)) := by
                      split at hst3
                      · cases hst3
                        exact ⟨rfl, fun _ => rfl⟩
                      · split at hst3
                        · cases hst3
                        · next pv hpv =>
                          cases hst3
                          exact ⟨rfl, fun q => deref_store_next _ _ _ _ hpv q⟩
                    split at hun
                    · cases hun; exact h3
                    · cases hun; exact h3
            rw [hfr.1, free_store]
            refine hinv.free_lonely hh0 hs _ _ (fun p f1 hp => ?_)
            simp only at hp
            rw [deref_free] at hp
            by_cases hx : pipe_file = p
            · simp [hx] at hp
            · simp only [hx, if_false] at hp
              obtain ⟨f, hf0, hg⟩ := map_eq_some_left (hfr.2 p) hp
              have hg : f.name = f1.name ∧ f.server = f1.server ∧ f.client = f1.client := by
                simpa using hg
              exact ⟨f, hf0, hg.2.1, hg.2.2⟩

end OfcFsPipe

namespace OfcFsPipe

/-- Allocating an entry and its unconnected server half keeps the invariant. -/
theorem LinkInv.alloc_server {st : State} (hinv : LinkInv st) (name : List Nat) :
    LinkInv { st with
      files := ofc_malloc st.files
        { next := none, name := name, server := some st.halves.length, client := none }
      halves := ofc_malloc st.halves
        { hPipe := some st.halves.length, hWaitQ := [],
          pipe_file := some st.files.length, sibling := none } } := by
  constructor
  · intro a ha b h1 hsib
    simp only at h1
    rw [deref_malloc] at h1
    by_cases hx : a = st.halves.length
    · simp only [hx, if_true, Option.some.injEq] at h1
      subst h1
      cases hsib
    · simp only [hx, if_false] at h1
      obtain ⟨hne, hb, hb0, hbs⟩ := hinv.sibling_back a ha b h1 hsib
      exact ⟨hne, hb, deref_malloc_old _ hb0, hbs⟩
  · intro p f s h1 hsrv
    simp only at h1
    rw [deref_malloc] at h1
    by_cases hx : p = st.files.length
    · simp only [hx, if_true, Option.some.injEq] at h1
      subst h1
      simp only [Option.some.injEq] at hsrv
      subst hsrv
      refine ⟨by simp, ?_⟩
      intro hs hs0
      simp only at hs0
      rw [deref_malloc_new] at hs0
      cases hs0
      exact ⟨by rw [hx], fun _ => rfl⟩
    · simp only [hx, if_false] at h1
      obtain ⟨hlt, hown⟩ := hinv.server_owned p f s h1 hsrv
      refine ⟨by simp; omega, ?_⟩
      intro hs hs0
      simp only at hs0
      rw [deref_malloc] at hs0
      simp only [Nat.ne_of_lt hlt, if_false] at hs0
      exact hown hs hs0

/-- Linking a new client half to the server of an entry with an empty client
slot keeps the invariant. -/
theorem LinkInv.link_client {st : State} (hinv : LinkInv st) {p s : Nat}
    {pf : OFC_FS_PIPE_FILE} {sv : OFC_FS_PIPE_HALF}
    (hpf : deref st.files p = some pf) (hcl : pf.client = none)
    (hsrv : pf.server = some s) (hsv : deref st.halves s = some sv) :
    LinkInv { st with
      files := store st.files p { pf with client := some st.halves.length }
      halves := store (ofc_malloc st.halves
          { hPipe := some st.halves.length, hWaitQ := [],
            pipe_file := some p, sibling := some s })
        s { sv with sibling := some st.halves.length } } := by
  obtain ⟨hslt, hown⟩ := hinv.server_owned p pf s hpf hsrv
  obtain ⟨hsvpf, hsvsib⟩ := hown sv hsv
  have hsvsib := hsvsib hcl
  have hsne : s ≠ st.halves.length := Nat.ne_of_lt hslt
  have hcell : ∀ a, deref (store (ofc_malloc st.halves
        { hPipe := some st.halves.length, hWaitQ := [],
          pipe_file := some p, sibling := some s })
        s { sv with sibling := some st.halves.length }) a =
      if a = s then some { sv with sibling := some st.halves.length }
      else if a = st.halves.length then
        some { hPipe := some st.halves.length, hWaitQ := [],
               pipe_file := some p, sibling := some s }
      else deref st.halves a := by
    intro a
    rw [deref_store]
    by_cases ha : s = a
    · subst ha
      simp [Nat.lt_succ_of_lt hslt]
    · have ha2 : ¬ a = s := fun e => ha e.symm
      simp only [ha, ha2, if_false]
      rw [deref_malloc]
  have hfcell : ∀ q, deref (store st.files p
        { pf with client := some st.halves.length }) q =
      if q = p then some { pf with client := some st.halves.length }
      else deref st.files q := by
    intro q
    rw [deref_store]
    by_cases hq : p = q
    · subst hq
      simp [deref_lt hpf]
    · have hq2 : ¬ q = p := fun e => hq e.symm
      simp [hq, hq2]
  constructor
  · intro a ha b h1 hsib
    simp only at h1
    rw [hcell] at h1
    simp only
    by_cases ha1 : a = s
    · rw [ha1] at h1
      simp only [if_true, Option.some.injEq] at h1
      subst h1
      simp only [Option.some.injEq] at hsib
      subst hsib
      rw [ha1]
      have hnew := hcell st.halves.length
      simp only [Ne.symm hsne, if_false, if_true] at hnew
      exact ⟨Ne.symm hsne, _, hnew, rfl⟩
    · by_cases ha2 : a = st.halves.length
      · rw [ha2] at h1
        simp only [Ne.symm hsne, if_false, if_true, Option.some.injEq] at h1
        subst h1
        simp only [Option.some.injEq] at hsib
        subst hsib
        rw [ha2]
        have hnew := hcell s
        simp only [if_true] at hnew
        exact ⟨hsne, _, hnew, rfl⟩
      · simp only [ha1, ha2, if_false] at h1
        obtain ⟨hne, hb, hb0, hbs⟩ := hinv.sibling_back a ha b h1 hsib
        have hb1 : b ≠ s := by
          intro e
          subst e
          rw [hsv] at hb0
          cases hb0
          rw [hsvsib] at hbs
          cases hbs
        have hb2 : b ≠ st.halves.length := Nat.ne_of_lt (deref_lt hb0)
        refine ⟨hne, hb, ?_, hbs⟩
        rw [hcell]
        simp [hb1, hb2, hb0]
  · intro q f s2 h1 hsrv2
    simp only at h1
    rw [hfcell] at h1
    simp only
    by_cases hq : q = p
    · rw [hq] at h1
      simp only [if_true, Option.some.injEq] at h1
      subst h1
      simp only at hsrv2
      rw [hsrv] at hsrv2
      simp only [Option.some.injEq] at hsrv2
      subst hsrv2
      refine ⟨by simp; omega, ?_⟩
      intro hs hs0
      rw [hcell] at hs0
      simp only [if_true, Option.some.injEq] at hs0
      subst hs0
      rw [hq]
      exact ⟨hsvpf, fun hc => by cases hc⟩
    · simp only [hq, if_false] at h1
      obtain ⟨hlt, hown2⟩ := hinv.server_owned q f s2 h1 hsrv2
      refine ⟨by simp; omega, ?_⟩
      intro hs hs0
      rw [hcell] at hs0
      have hx2 : s2 ≠ st.halves.length := Nat.ne_of_lt hlt
      by_cases hx1 : s2 = s
      · exfalso
        rw [hx1] at hown2
        obtain ⟨hpf2, _⟩ := hown2 sv hsv
        rw [hsvpf] at hpf2
        exact hq (Option.some.inj hpf2).symm
      · simp only [hx1, hx2, if_false] at hs0
        exact hown2 hs hs0

theorem LinkInv.create {st st1 : State} (hinv : LinkInv st) {name : List Nat}
    {disp : OFC_CREATE_DISPOSITION} {fileOk halfOk : Bool}
    (h : (OfcFSPipeCreateFile st name disp fileOk halfOk).state = some st1) :
    LinkInv st1 := by
  by_cases hd : disp = .OFC_CREATE_ALWAYS ∨ disp = .OFC_CREATE_NEW
  · simp only [OfcFSPipeCreateFile, hd, if_true] at h
    split at h
    · split at h
      · split at h
        · cases h
        · next st2 henq =>
          simp only [Step.state, Option.some.injEq] at h
          subst h
          obtain ⟨hh, _, hf⟩ := pipe_enqueue_internal_frame henq
          refine (hinv.alloc_server name).transfer (by rw [hh]) (fun a => by rw [hh])
            (fun p f1 hp => ?_)
          obtain ⟨f, hf0, hg⟩ := map_eq_some_left (hf p) hp
          have hg : f.name = f1.name ∧ f.server = f1.server ∧ f.client = f1.client := by
            simpa using hg
          exact ⟨f, hf0, hg.2.1, hg.2.2⟩
      · cases h; exact hinv
    · cases h; exact hinv
  · have hd1 : disp ≠ .OFC_CREATE_ALWAYS := fun e => hd (Or.inl e)
    have hd2 : disp ≠ .OFC_CREATE_NEW := fun e => hd (Or.inr e)
    rw [create_client_unfold st name disp fileOk halfOk hd1 hd2] at h
    split at h
    · cases h
    · cases h; exact hinv
    · next p hfind =>
      obtain ⟨pf0, hpf0, _, hclient⟩ := findScan_some hfind
      split at h
      · rw [hpf0] at h
        simp only at h
        split at h
        · cases h
        · next s hs =>
          obtain ⟨hslt, _⟩ := hinv.server_owned p pf0 s hpf0 hs
          have hold : deref (ofc_malloc st.halves
              { hPipe := some st.halves.length, hWaitQ := [],
                pipe_file := some p, sibling := pf0.server }) s = deref st.halves s := by
            rw [deref_malloc]; simp [Nat.ne_of_lt hslt]
          rw [hold] at h
          split at h
          · cases h
          · next sv hsv =>
            simp only [Step.state, Option.some.injEq] at h
            subst h
            have := hinv.link_client hpf0 hclient hs hsv
            simpa only [hs] using this
      · cases h; exact hinv

/-- The invariant holds after every run from a state that has it. -/
theorem LinkInv.run {ops : List Op} : ∀ {st st1 : State}, LinkInv st →
    run st ops = some st1 → LinkInv st1 := by
  induction ops with
  | nil =>
    intro st st1 hinv h
    simp only [OfcFsPipe.run, Option.some.injEq] at h
    subst h; exact hinv
  | cons op ops ih =>
    intro st st1 hinv h
    simp only [OfcFsPipe.run] at h
    split at h
    · cases h
    · next st2 hop =>
      refine ih ?_ h
      cases op with
      | create n d a b => exact hinv.create hop
      | write hf b => exact hinv.write hop
      | read hf n => exact hinv.read hop
      | transact hf b n => exact hinv.transact hop
      | transactWake hf n => exact hinv.transactWake hop
      | close hf => exact hinv.close hop

theorem LinkInv.peerMutual {st : State} (hinv : LinkInv st) : PeerMutual st := by
  intro a b ha hb h1 h2
  constructor
  · intro hs
    obtain ⟨_, hb1, hb0, hbs⟩ := hinv.sibling_back a ha b h1 hs
    rw [h2] at hb0
    cases hb0
    exact hbs
  · intro hs
    obtain ⟨_, ha1, ha0, has⟩ := hinv.sibling_back b hb a h2 hs
    rw [h1] at ha0
    cases ha0
    exact has

/-- C9: peer mutuality holds in every state reached from startup by server
creates, client creates, writes, reads, transacts and closes: for live halves
`a` and `b`, the sibling of `a` is `b` exactly when the sibling of `b` is `a`;
and each of those calls carries the linkage invariant behind it from the state
before to the state after. -/
theorem peer_mutuality_reachable (st : State) (h : Reachable st) :
    PeerMutual st ∧ LinkInv st ∧
    ∀ (op : Op) (st1 : State), op.apply st = some st1 → PeerMutual st1 ∧ LinkInv st1 := by
  obtain ⟨ops, hrun⟩ := h
  have hinv : LinkInv st := LinkInv.run LinkInv.startup hrun
  refine ⟨hinv.peerMutual, hinv, ?_⟩
  intro op st1 hop
  have h1 : LinkInv st1 := by
    have hr : run st [op] = some st1 := by
      simp only [OfcFsPipe.run, hop]
    exact LinkInv.run hinv hr
  exact ⟨h1.peerMutual, h1⟩

/-- The connected pair `sampleConnected` is reached by a server create and a
client create, so it is peer-mutual. -/
theorem peer_mutuality_reachable_witness :
    PeerMutual sampleConnected ∧ LinkInv sampleConnected ∧
    ∀ (op : Op) (st1 : State), op.apply sampleConnected = some st1 →
      PeerMutual st1 ∧ LinkInv st1 :=
  peer_mutuality_reachable sampleConnected
    ⟨[.create [1] .OFC_CREATE_NEW true true, .create [1] .OFC_OPEN_EXISTING true true],
     by decide⟩

end OfcFsPipe

/-! ## Order-preserving delivery -/

namespace OfcFsPipe

theorem unreadBytes_append (q1 q2 : List OFC_FS_PIPE_DATA) :
    unreadBytes (q1 ++ q2) = unreadBytes q1 ++ unreadBytes q2 := by
  induction q1 with
  | nil => rfl
  | cons d q ih => simp [unreadBytes, ih]

theorem unread_fresh (w : List Nat) :
    OFC_FS_PIPE_DATA.unread { len := w.length, offset := 0, buffer := w } = w := by
  simp [OFC_FS_PIPE_DATA.unread]

/-- A Read splits the unread bytes of the front record into the bytes it
delivers and the unread bytes it leaves. -/
theorem unread_split (d : OFC_FS_PIPE_DATA) (n : Nat) :
    d.unread = (d.buffer.drop d.offset).take (min n d.len) ++
      OFC_FS_PIPE_DATA.unread
        { d with len := d.len - min n d.len, offset := d.offset + min n d.len } := by
  have hk : d.len = min n d.len + (d.len - min n d.len) := by omega
  simp only [OFC_FS_PIPE_DATA.unread]
  conv_lhs => rw [hk]
  rw [List.take_add, List.drop_drop]

theorem unreadBytes_after_read (d : OFC_FS_PIPE_DATA) (rest : List OFC_FS_PIPE_DATA)
    (n : Nat) :
    unreadBytes (d :: rest) = (d.buffer.drop d.offset).take (min n d.len) ++
      unreadBytes (if d.len - min n d.len = 0 then rest
        else { d with len := d.len - min n d.len,
                      offset := d.offset + min n d.len } :: rest) := by
  by_cases h0 : d.len - min n d.len = 0
  · simp only [h0, if_true, unreadBytes]
    rw [unread_split d n]
    simp [OFC_FS_PIPE_DATA.unread, h0]
  · simp only [h0, if_false, unreadBytes]
    rw [unread_split d n, List.append_assoc]

/-- Stream equation of a schedule: what was unread in the consumer's queue
followed by everything written equals everything delivered followed by what is
unread at the end. -/
theorem pump_stream (a b : Nat) (hne : a ≠ b) (cs : List PipeCall) :
    ∀ (st : State) (ha hb : OFC_FS_PIPE_HALF),
      deref st.halves a = some ha → ha.sibling = some b → deref st.halves b = some hb →
      ∃ st1 rs hb1, pump a b st cs = some (st1, rs) ∧
        deref st1.halves b = some hb1 ∧
        unreadBytes hb.hWaitQ ++ written cs = rs ++ unreadBytes hb1.hWaitQ := by
  induction cs with
  | nil =>
    intro st ha hb h1 h2 h3
    exact ⟨st, [], hb, rfl, h3, by simp [written]⟩
  | cons c cs ih =>
    intro st ha hb h1 h2 h3
    cases c with
    | write w =>
      have hw : OfcFSPipeWriteFile st a w =
          .ret (setQueue st b hb (hb.hWaitQ ++
              [{ len := w.length, offset := 0, buffer := w }]))
            { ret := true, written := some w.length, lastError := none } := by
        simp only [OfcFSPipeWriteFile, ofc_handle_lock, h1, h2, h3]
      have h1n : deref (setQueue st b hb (hb.hWaitQ ++
          [{ len := w.length, offset := 0, buffer := w }])).halves a = some ha := by
        simp only [setQueue]
        rw [deref_store_ne _ (Ne.symm hne)]; exact h1
      have h3n : deref (setQueue st b hb (hb.hWaitQ ++
          [{ len := w.length, offset := 0, buffer := w }])).halves b =
          some { hb with hWaitQ := hb.hWaitQ ++
            [{ len := w.length, offset := 0, buffer := w }] } := by
        simp only [setQueue]
        exact deref_store_self h3
      obtain ⟨st1, rs, hb1, hp, hd, heq⟩ := ih _ ha _ h1n h2 h3n
      refine ⟨st1, rs, hb1, ?_, hd, ?_⟩
      · simp only [pump, hw, and_self, if_true]
        exact hp
      · rw [← heq]
        simp only [written, unreadBytes_append, unreadBytes, unread_fresh,
          List.append_nil, List.append_assoc]
    | read n =>
      cases hq : hb.hWaitQ with
      | nil =>
        by_cases hs : hb.sibling = none
        · have hr : OfcFSPipeReadFile st b n =
              .ret st { ret := false, nRead := none, bytes := [],
                        lastError := some OFC_ERROR.BROKEN_PIPE } := by
            simp [OfcFSPipeReadFile, ofc_handle_lock, h3, hq, hs]
          obtain ⟨st1, rs, hb1, hp, hd, heq⟩ := ih st ha hb h1 h2 h3
          refine ⟨st1, rs, hb1, ?_, hd, ?_⟩
          · simp only [pump, hr, hp]
            simp
          · rw [hq] at heq
            simpa [written] using heq
        · have hr : OfcFSPipeReadFile st b n = .block st := by
            simp [OfcFSPipeReadFile, ofc_handle_lock, h3, hq, hs]
          obtain ⟨st1, rs, hb1, hp, hd, heq⟩ := ih st ha hb h1 h2 h3
          refine ⟨st1, rs, hb1, ?_, hd, ?_⟩
          · simp only [pump, hr, hp]
          · rw [hq] at heq
            simpa [written] using heq
      | cons d rest =>
        have hr : OfcFSPipeReadFile st b n =
            .ret (setQueue st b hb
                (if d.len - min n d.len = 0 then rest
                 else { d with len := d.len - min n d.len,
                               offset := d.offset + min n d.len } :: rest))
              { ret := true, nRead := some (min n d.len),
                bytes := (d.buffer.drop d.offset).take (min n d.len),
                lastError := none } := by
          simp only [OfcFSPipeReadFile, ofc_handle_lock, h3, hq]
        have h1n : deref (setQueue st b hb
            (if d.len - min n d.len = 0 then rest
             else { d with len := d.len - min n d.len,
                           offset := d.offset + min n d.len } :: rest)).halves a
            = some ha := by
          simp only [setQueue]
          rw [deref_store_ne _ (Ne.symm hne)]; exact h1
        have h3n : deref (setQueue st b hb
            (if d.len - min n d.len = 0 then rest
             else { d with len := d.len - min n d.len,
                           offset := d.offset + min n d.len } :: rest)).halves b
            = some { hb with hWaitQ :=
                (if d.len - min n d.len = 0 then rest
                 else { d with len := d.len - min n d.len,
                               offset := d.offset + min n d.len } :: rest) } := by
          simp only [setQueue]
          exact deref_store_self h3
        obtain ⟨st1, rs, hb1, hp, hd, heq⟩ := ih _ ha _ h1n h2 h3n
        refine ⟨st1, (d.buffer.drop d.offset).take (min n d.len) ++ rs, hb1, ?_, hd, ?_⟩
        · simp only [pump, hr, hp]
          simp
        · simp only at heq
          rw [unreadBytes_after_read d rest n, List.append_assoc, List.append_assoc, ← heq]
          simp [written]

theorem queueWeight_append (q1 q2 : List OFC_FS_PIPE_DATA) :
    queueWeight (q1 ++ q2) = queueWeight q1 + queueWeight q2 := by
  induction q1 with
  | nil => simp [queueWeight]
  | cons d q ih =>
    show d.len + 1 + queueWeight (q ++ q2) = d.len + 1 + queueWeight q + queueWeight q2
    rw [ih]; omega

/-- A Read with a positive requested length takes weight off the queue. -/
theorem queueWeight_after_read (d : OFC_FS_PIPE_DATA) (rest : List OFC_FS_PIPE_DATA)
    (n : Nat) (hn : 0 < n) :
    queueWeight (if d.len - min n d.len = 0 then rest
        else { d with len := d.len - min n d.len,
                      offset := d.offset + min n d.len } :: rest) + 1 ≤
      queueWeight (d :: rest) := by
  by_cases h0 : d.len - min n d.len = 0
  · simp only [h0, if_true, queueWeight]; omega
  · simp only [h0, if_false, queueWeight]; omega

/-- A Read with any requested length puts no weight on the queue. -/
theorem queueWeight_after_read_le (d : OFC_FS_PIPE_DATA) (rest : List OFC_FS_PIPE_DATA)
    (n : Nat) :
    queueWeight (if d.len - min n d.len = 0 then rest
        else { d with len := d.len - min n d.len,
                      offset := d.offset + min n d.len } :: rest) ≤
      queueWeight (d :: rest) := by
  by_cases h0 : d.len - min n d.len = 0
  · simp only [h0, if_true, queueWeight]; omega
  · simp only [h0, if_false, queueWeight]; omega

/-- A schedule in two parts runs as the first part followed by the second. -/
theorem pump_append (a b : Nat) (cs cs2 : List PipeCall) :
    ∀ st : State, pump a b st (cs ++ cs2) =
      match pump a b st cs with
      | none => none
      | some out1 =>
        (pump a b out1.1 cs2).map (fun out2 => (out2.1, out1.2 ++ out2.2)) := by
  induction cs with
  | nil =>
    intro st
    simp only [List.nil_append, pump]
    cases pump a b st cs2 with
    | none => rfl
    | some out => simp
  | cons c cs ih =>
    intro st
    cases c with
    | write w =>
      simp only [List.cons_append, pump, List.append_eq]
      cases OfcFSPipeWriteFile st a w with
      | ret st1 r =>
        simp only
        by_cases hr : r.ret = true ∧ r.written = some w.length
        · simp only [hr, and_self, if_true]
          exact ih st1
        · simp only [hr, if_false]
      | block st1 => rfl
      | fault => rfl
    | read n =>
      simp only [List.cons_append, pump, List.append_eq]
      cases OfcFSPipeReadFile st b n with
      | ret st1 r =>
        simp only
        rw [ih st1]
        cases pump a b st1 cs with
        | none => rfl
        | some out1 =>
          simp only [Option.map_some']
          cases pump a b out1.1 cs2 with
          | none => rfl
          | some out2 => simp
      | block st1 =>
        simp only
        exact ih st1
      | fault => rfl

/-- Positive Reads drain the queue: a run of Reads with positive requested
lengths, at least as many as the weight of the consumer's queue, delivers
exactly the unread bytes of that queue, in order, and leaves it empty. -/
theorem pump_drain (a b : Nat) (ns : List Nat) :
    ∀ (st : State) (hb : OFC_FS_PIPE_HALF),
      (∀ n ∈ ns, 0 < n) → deref st.halves b = some hb →
      queueWeight hb.hWaitQ ≤ ns.length →
      ∃ st2 hb2, pump a b st (ns.map PipeCall.read) = some (st2, unreadBytes hb.hWaitQ) ∧
        deref st2.halves b = some hb2 ∧ hb2.hWaitQ = [] := by
  induction ns with
  | nil =>
    intro st hb _ h3 hw
    cases hq : hb.hWaitQ with
    | nil => exact ⟨st, hb, by simp [pump, unreadBytes], h3, hq⟩
    | cons d rest =>
      rw [hq] at hw
      simp only [queueWeight, List.length_nil] at hw
      omega
  | cons n ns ih =>
    intro st hb hpos h3 hw
    have hn : 0 < n := hpos n (List.mem_cons_self _ _)
    have hpos2 : ∀ m ∈ ns, 0 < m := fun m hm => hpos m (List.mem_cons_of_mem _ hm)
    cases hq : hb.hWaitQ with
    | nil =>
      have hw2 : queueWeight hb.hWaitQ ≤ ns.length := by
        rw [hq]; simp [queueWeight]
      obtain ⟨st2, hb2, hp, hd, he⟩ := ih st hb hpos2 h3 hw2
      rw [hq] at hp
      by_cases hs : hb.sibling = none
      · have hr : OfcFSPipeReadFile st b n =
            .ret st { ret := false, nRead := none, bytes := [],
                      lastError := some OFC_ERROR.BROKEN_PIPE } := by
          simp [OfcFSPipeReadFile, ofc_handle_lock, h3, hq, hs]
        refine ⟨st2, hb2, ?_, hd, he⟩
        simp only [List.map_cons, pump, hr, hp]
        simp
      · have hr : OfcFSPipeReadFile st b n = .block st := by
          simp [OfcFSPipeReadFile, ofc_handle_lock, h3, hq, hs]
        refine ⟨st2, hb2, ?_, hd, he⟩
        simp only [List.map_cons, pump, hr, hp]
    | cons d rest =>
      have hr := read_front_eq st b hb d rest n h3 hq
      have h3n : deref (setQueue st b hb
          (if d.len - min n d.len = 0 then rest
           else { d with len := d.len - min n d.len,
                         offset := d.offset + min n d.len } :: rest)).halves b
          = some { hb with hWaitQ :=
              (if d.len - min n d.len = 0 then rest
               else { d with len := d.len - min n d.len,
                             offset := d.offset + min n d.len } :: rest) } := by
        simp only [setQueue]
        exact deref_store_self h3
      have hw2 : queueWeight (if d.len - min n d.len = 0 then rest
           else { d with len := d.len - min n d.len,
                         offset := d.offset + min n d.len } :: rest) ≤ ns.length := by
        have := queueWeight_after_read d rest n hn
        rw [hq] at hw
        simp only [List.length_cons] at hw
        omega
      obtain ⟨st2, hb2, hp, hd, he⟩ := ih _ _ hpos2 h3n hw2
      refine ⟨st2, hb2, ?_, hd, he⟩
      simp only at hp
      simp only [List.map_cons, pump, hr, hp, Option.map_some', if_true]
      rw [unreadBytes_after_read d rest n]

/-- Along a schedule the producer half is untouched and the consumer's queue
gains no more weight than the Writes put in. -/
theorem pump_frame (a b : Nat) (hne : a ≠ b) (cs : List PipeCall) :
    ∀ (st : State) (ha hb : OFC_FS_PIPE_HALF),
      deref st.halves a = some ha → ha.sibling = some b → deref st.halves b = some hb →
      ∃ st1 rs hb1, pump a b st cs = some (st1, rs) ∧
        deref st1.halves a = some ha ∧ deref st1.halves b = some hb1 ∧
        queueWeight hb1.hWaitQ ≤ queueWeight hb.hWaitQ + writeWeight cs := by
  induction cs with
  | nil =>
    intro st ha hb h1 h2 h3
    exact ⟨st, [], hb, rfl, h1, h3, by simp [writeWeight]⟩
  | cons c cs ih =>
    intro st ha hb h1 h2 h3
    cases c with
    | write w =>
      have hw : OfcFSPipeWriteFile st a w =
          .ret (setQueue st b hb (hb.hWaitQ ++
              [{ len := w.length, offset := 0, buffer := w }]))
            { ret := true, written := some w.length, lastError := none } := by
        simp only [OfcFSPipeWriteFile, ofc_handle_lock, h1, h2, h3]
      have h1n : deref (setQueue st b hb (hb.hWaitQ ++
          [{ len := w.length, offset := 0, buffer := w }])).halves a = some ha := by
        simp only [setQueue]
        rw [deref_store_ne _ (Ne.symm hne)]; exact h1
      have h3n : deref (setQueue st b hb (hb.hWaitQ ++
          [{ len := w.length, offset := 0, buffer := w }])).halves b =
          some { hb with hWaitQ := hb.hWaitQ ++
            [{ len := w.length, offset := 0, buffer := w }] } := by
        simp only [setQueue]
        exact deref_store_self h3
      obtain ⟨st1, rs, hb1, hp, hda, hd, hwt⟩ := ih _ ha _ h1n h2 h3n
      refine ⟨st1, rs, hb1, ?_, hda, hd, ?_⟩
      · simp only [pump, hw, and_self, if_true]
        exact hp
      · simp only [queueWeight_append, queueWeight, writeWeight] at hwt ⊢
        omega
    | read n =>
      cases hq : hb.hWaitQ with
      | nil =>
        obtain ⟨st1, rs, hb1, hp, hda, hd, hwt⟩ := ih st ha hb h1 h2 h3
        rw [hq] at hwt
        by_cases hs : hb.sibling = none
        · have hr : OfcFSPipeReadFile st b n =
              .ret st { ret := false, nRead := none, bytes := [],
                        lastError := some OFC_ERROR.BROKEN_PIPE } := by
            simp [OfcFSPipeReadFile, ofc_handle_lock, h3, hq, hs]
          refine ⟨st1, rs, hb1, ?_, hda, hd, by simpa [writeWeight] using hwt⟩
          simp only [pump, hr, hp]
          simp
        · have hr : OfcFSPipeReadFile st b n = .block st := by
            simp [OfcFSPipeReadFile, ofc_handle_lock, h3, hq, hs]
          refine ⟨st1, rs, hb1, ?_, hda, hd, by simpa [writeWeight] using hwt⟩
          simp only [pump, hr, hp]
      | cons d rest =>
        have hr := read_front_eq st b hb d rest n h3 hq
        have h1n : deref (setQueue st b hb
            (if d.len - min n d.len = 0 then rest
             else { d with len := d.len - min n d.len,
                           offset := d.offset + min n d.len } :: rest)).halves a
            = some ha := by
          simp only [setQueue]
          rw [deref_store_ne _ (Ne.symm hne)]; exact h1
        have h3n : deref (setQueue st b hb
            (if d.len - min n d.len = 0 then rest
             else { d with len := d.len - min n d.len,
                           offset := d.offset + min n d.len } :: rest)).halves b
            = some { hb with hWaitQ :=
                (if d.len - min n d.len = 0 then rest
                 else { d with len := d.len - min n d.len,
                               offset := d.offset + min n d.len } :: rest) } := by
          simp only [setQueue]
          exact deref_store_self h3
        obtain ⟨st1, rs, hb1, hp, hda, hd, hwt⟩ := ih _ ha _ h1n h2 h3n
        refine ⟨st1, (d.buffer.drop d.offset).take (min n d.len) ++ rs, hb1,
          ?_, hda, hd, ?_⟩
        · simp only [pump, hr, hp, Option.map_some', if_true]
        · have := queueWeight_after_read_le d rest n
          simp only at hwt
          simp only [writeWeight]
          omega

/-- C1: on a pair where half `a` has the live half `b` as sibling and `b`'s
queue starts empty, every schedule of Writes on `a` and Reads on `b` (any
requested lengths, any interleaving) runs with each Write returning TRUE and
the full count, and the concatenation of the bytes delivered by the
successful Reads, followed by the bytes still unread in `b`'s queue, is the
concatenation of the payloads: the delivered bytes are a prefix of it, and
all of it once `b`'s queue is empty.  And the Reads do deliver: the schedule
followed by Reads of positive requested lengths, one per byte and one per
Write of the schedule or more, delivers exactly the concatenation of the
payloads and leaves `b`'s queue empty. -/
theorem write_read_stream (st : State) (a b : Nat) (ha hb : OFC_FS_PIPE_HALF)
    (cs : List PipeCall) (hne : a ≠ b)
    (h1 : deref st.halves a = some ha) (h2 : ha.sibling = some b)
    (h3 : deref st.halves b = some hb) (hq : hb.hWaitQ = []) :
    (∃ st1 rs hb1, pump a b st cs = some (st1, rs) ∧
      deref st1.halves b = some hb1 ∧
      written cs = rs ++ unreadBytes hb1.hWaitQ ∧
      rs <+: written cs ∧
      (hb1.hWaitQ = [] → rs = written cs)) ∧
    (∀ ns : List Nat, (∀ n ∈ ns, 0 < n) → writeWeight cs ≤ ns.length →
      ∃ st2 hb2,
        pump a b st (cs ++ ns.map PipeCall.read) = some (st2, written cs) ∧
        deref st2.halves b = some hb2 ∧ hb2.hWaitQ = []) := by
  constructor
  · obtain ⟨st1, rs, hb1, hp, hd, heq⟩ := pump_stream a b hne cs st ha hb h1 h2 h3
    rw [hq] at heq
    simp only [unreadBytes, List.nil_append] at heq
    refine ⟨st1, rs, hb1, hp, hd, heq, ⟨_, heq.symm⟩, ?_⟩
    intro he
    rw [he] at heq
    simpa [unreadBytes] using heq.symm
  · intro ns hpos hlen
    obtain ⟨st1, rs, hb1, hp, hd, heq⟩ := pump_stream a b hne cs st ha hb h1 h2 h3
    obtain ⟨st1f, rsf, hb1f, hpf, _, hdf, hwt⟩ := pump_frame a b hne cs st ha hb h1 h2 h3
    rw [hp] at hpf
    have hst : st1 = st1f := (Prod.mk.inj (Option.some.inj hpf)).1
    subst hst
    rw [hd] at hdf
    cases hdf
    rw [hq] at heq hwt
    simp only [unreadBytes, List.nil_append] at heq
    simp only [queueWeight, Nat.zero_add] at hwt
    obtain ⟨st2, hb2, hp2, hd2, he2⟩ :=
      pump_drain a b ns st1 hb1 hpos hd (Nat.le_trans hwt hlen)
    refine ⟨st2, hb2, ?_, hd2, he2⟩
    rw [pump_append, hp]
    simp only [hp2, Option.map_some']
    rw [heq]

/-- Scenario C of C1: the server (half 0) writes "0123456789", the client
(half 1) reads 4 and then 6 bytes: the Reads deliver "0123456789" and the
pair is back in `sampleConnected`, the client's queue empty; and after the
Write, eleven positive Reads (4, 6, then 1 each) deliver "0123456789". -/
theorem write_read_stream_witness :
    pump 0 1 sampleConnected
        [.write [48, 49, 50, 51, 52, 53, 54, 55, 56, 57], .read 4, .read 6] =
      some (sampleConnected, [48, 49, 50, 51, 52, 53, 54, 55, 56, 57]) ∧
    (deref sampleConnected.halves 1).map (fun h => h.hWaitQ) = some [] ∧
    (∃ st1 rs hb1,
      pump 0 1 sampleConnected
        [.write [48, 49, 50, 51, 52, 53, 54, 55, 56, 57], .read 4, .read 6] =
          some (st1, rs) ∧
      deref st1.halves 1 = some hb1 ∧
      written [.write [48, 49, 50, 51, 52, 53, 54, 55, 56, 57], .read 4, .read 6] =
        rs ++ unreadBytes hb1.hWaitQ ∧
      rs <+: written [.write [48, 49, 50, 51, 52, 53, 54, 55, 56, 57], .read 4, .read 6] ∧
      (hb1.hWaitQ = [] →
        rs = written [.write [48, 49, 50, 51, 52, 53, 54, 55, 56, 57], .read 4, .read 6])) ∧
    (∃ st2 hb2,
      pump 0 1 sampleConnected
        ([.write [48, 49, 50, 51, 52, 53, 54, 55, 56, 57]] ++
          ([4, 6, 1, 1, 1, 1, 1, 1, 1, 1, 1] : List Nat).map PipeCall.read) =
        some (st2, written [.write [48, 49, 50, 51, 52, 53, 54, 55, 56, 57]]) ∧
      deref st2.halves 1 = some hb2 ∧ hb2.hWaitQ = []) :=
  ⟨by decide, by decide,
   (write_read_stream sampleConnected 0 1
      { hPipe := some 0, hWaitQ := [], pipe_file := some 0, sibling := some 1 }
      { hPipe := some 1, hWaitQ := [], pipe_file := some 0, sibling := some 0 }
      [.write [48, 49, 50, 51, 52, 53, 54, 55, 56, 57], .read 4, .read 6]
      (by decide) rfl rfl rfl rfl).1,
   (write_read_stream sampleConnected 0 1
      { hPipe := some 0, hWaitQ := [], pipe_file := some 0, sibling := some 1 }
      { hPipe := some 1, hWaitQ := [], pipe_file := some 0, sibling := some 0 }
      [.write [48, 49, 50, 51, 52, 53, 54, 55, 56, 57]]
      (by decide) rfl rfl rfl rfl).2 [4, 6, 1, 1, 1, 1, 1, 1, 1, 1, 1]
      (by decide) (by decide)⟩

end OfcFsPipe

/-! ## Close of a connected half -/

namespace OfcFsPipe

theorem drain_eq_nil (q : List OFC_FS_PIPE_DATA) : drain q = [] := by
  induction q with
  | nil => rfl
  | cons d q ih => simpa [drain] using ih

/-- C11: Close of a half `hFile` whose sibling `s` is present returns TRUE;
the drain loop empties the closing half's queue and the half is gone; the
sibling keeps its queue (records, order, cursors) and its other fields, only
its sibling pointer is cleared; every other half, the entries and the
registry head are untouched; afterwards a Write on the sibling fails with
`BROKEN_PIPE` and a Read on it still delivers the front record's unread
bytes. -/
theorem close_peer_present_frame (st : State) (hFile s : Nat)
    (half peer : OFC_FS_PIPE_HALF) (payload : List Nat) (n : Nat)
    (hh : ofc_handle_lock st hFile = some half) (hs : half.sibling = some s)
    (hne : s ≠ hFile) (hp : deref st.halves s = some peer) :
    ∃ st1, OfcFSPipeCloseHandle st hFile = .ret st1 true ∧
      drain half.hWaitQ = [] ∧
      deref st1.halves hFile = none ∧
      deref st1.halves s = some { peer with sibling := none } ∧
      (∀ x, x ≠ hFile → x ≠ s → st1.halves[x]? = st.halves[x]?) ∧
      st1.files = st.files ∧ st1.pipes = st.pipes ∧
      OfcFSPipeWriteFile st1 s payload =
        .ret st1 { ret := false, written := none,
                   lastError := some OFC_ERROR.BROKEN_PIPE } ∧
      (∀ d rest, peer.hWaitQ = d :: rest →
        ∃ st2, OfcFSPipeReadFile st1 s n =
          .ret st2 { ret := true, nRead := some (min n d.len),
                     bytes := (d.buffer.drop d.offset).take (min n d.len),
                     lastError := none }) := by
  obtain ⟨peer1, hp1, hc⟩ := close_peer_present_eq st hFile s half peer hh hs hp
  rw [deref_store_ne _ (Ne.symm hne), hp] at hp1
  cases hp1
  have hps : deref (store st.halves hFile
      { half with hWaitQ := drain half.hWaitQ, hPipe := none }) s = some peer := by
    rw [deref_store_ne _ (Ne.symm hne)]; exact hp
  have hsib : deref (ofc_free (store (store st.halves hFile
      { half with hWaitQ := drain half.hWaitQ, hPipe := none }) s
      { peer with sibling := none }) hFile) s = some { peer with sibling := none } := by
    rw [deref_free_ne (Ne.symm hne)]
    exact deref_store_self hps
  refine ⟨_, hc, drain_eq_nil _, deref_free_self _ _, hsib, ?_, rfl, rfl, ?_, ?_⟩
  · intro x hx1 hx2
    simp only [ofc_free, store]
    rw [List.getElem?_set_ne (Ne.symm hx1), List.getElem?_set_ne (Ne.symm hx2),
      List.getElem?_set_ne (Ne.symm hx1)]
  · simp only [OfcFSPipeWriteFile, ofc_handle_lock, hsib]
  · intro d rest hq
    exact ⟨_, read_front_eq _ s { peer with sibling := none } d rest n hsib hq⟩

/-- On `sampleHelloSent` the client (half 1) closes: the server (half 0) keeps
"hello" in its queue, cannot write any more, and still reads "hello". -/
theorem close_peer_present_frame_witness :
    ∃ st1, OfcFSPipeCloseHandle sampleHelloSent 1 = .ret st1 true ∧
      drain ([] : List OFC_FS_PIPE_DATA) = [] ∧
      deref st1.halves 1 = none ∧
      deref st1.halves 0 =
        some { hPipe := some 0, hWaitQ := [sampleHello], pipe_file := some 0,
               sibling := none } ∧
      (∀ x, x ≠ 1 → x ≠ 0 → st1.halves[x]? = sampleHelloSent.halves[x]?) ∧
      st1.files = sampleHelloSent.files ∧ st1.pipes = sampleHelloSent.pipes ∧
      OfcFSPipeWriteFile st1 0 [33] =
        .ret st1 { ret := false, written := none,
                   lastError := some OFC_ERROR.BROKEN_PIPE } ∧
      (∀ d rest, [sampleHello] = d :: rest →
        ∃ st2, OfcFSPipeReadFile st1 0 8 =
          .ret st2 { ret := true, nRead := some (min 8 d.len),
                     bytes := (d.buffer.drop d.offset).take (min 8 d.len),
                     lastError := none }) :=
  close_peer_present_frame sampleHelloSent 1 0
    { hPipe := some 1, hWaitQ := [], pipe_file := some 0, sibling := some 0 }
    { hPipe := some 0, hWaitQ := [sampleHello], pipe_file := some 0, sibling := some 1 }
    [33] 8 rfl rfl (by decide) rfl

end OfcFsPipe

/-! ## Register and unregister -/

namespace OfcFsPipe

/-- C12, the code at the failing input: after pipe `[1]` was created and
connected and pipe `[2]` was created, connected and closed on both sides, the
registry collection is `[0]` with `pipes.last` null; the server create for
`[3]` then leaves the collection `[2]`, not `[0, 2]`: entry 0, whose two
halves are live, is no longer reachable from the head. -/
theorem register_after_tail_unlink_drops_chain :
    run OfcFSPipeStartup sampleTailClosedOps = some sampleTailClosed ∧
    registry sampleTailClosed = some [0] ∧
    sampleTailClosed.pipes.last = none ∧
    (OfcFSPipeCreateFile sampleTailClosed [3] .OFC_CREATE_NEW true true).state.bind registry
      = some [2] ∧
    (OfcFSPipeCreateFile sampleTailClosed [3] .OFC_CREATE_NEW true true).state.bind
      (fun st => deref st.halves 0) =
        some { hPipe := some 0, hWaitQ := [], pipe_file := some 0, sibling := some 1 } := by
  decide

theorem pipe_unlink_internal_absent (st : State) (pipe_file : Nat) {l : List Nat}
    (hl : IsSeg st.files st.pipes.first l none) (hmem : pipe_file ∉ l) :
    pipe_unlink_internal st pipe_file = some st := by
  have hfuel : l.length < st.files.length + 1 := Nat.lt_succ_of_le (IsSeg_length_le hl)
  obtain ⟨pv, hscan⟩ := unlinkScan_not_found none hl hmem hfuel
  simp only [pipe_unlink_internal, hscan]

/-- C13: on a registry collection `l`, `pipe_unlink_internal` of the entry at
`pipe_file` returns, and the collection afterwards is `l` with that address
taken out once, which is `l` with every other address kept in its order
(entries of equal name are other addresses); every entry keeps its name,
server and client, the halves are untouched, and when the address is not in
`l` the whole state is as before. -/
theorem unregister_removes_by_identity (st : State) (pipe_file : Nat) (l : List Nat)
    (hl : registry st = some l) :
    ∃ st1, pipe_unlink_internal st pipe_file = some st1 ∧
      registry st1 = some (l.erase pipe_file) ∧
      l.erase pipe_file = l.filter (fun q => decide (q ≠ pipe_file)) ∧
      pipe_file ∉ l.erase pipe_file ∧
      (pipe_file ∉ l → st1 = st) ∧
      st1.halves = st.halves ∧
      ∀ q, (deref st1.files q).map (fun e => (e.name, e.server, e.client)) =
           (deref st.files q).map (fun e => (e.name, e.server, e.client)) := by
  have hseg := (registry_eq_some_iff st l).1 hl
  have hnd := IsSeg_nodup hseg
  obtain ⟨st1, hun, hseg1, hh, _, hdata⟩ := pipe_unlink_internal_chain st pipe_file hseg
  refine ⟨st1, hun, (registry_eq_some_iff st1 _).2 hseg1, ?_, ?_, ?_, hh, hdata⟩
  · rw [List.Nodup.erase_eq_filter hnd]
    congr 1
    funext q
    by_cases hq : q = pipe_file <;> simp [hq]
  · exact fun h => ((List.Nodup.mem_erase_iff hnd).1 h).1 rfl
  · intro hmem
    have := pipe_unlink_internal_absent st pipe_file hseg hmem
    rw [hun] at this
    exact Option.some.inj this

/-- On `sampleTwins` (two entries named `[1]`), unlinking entry 0 leaves the
collection `[1]`: the other entry of the same name stays. -/
theorem unregister_removes_by_identity_witness :
    ∃ st1, pipe_unlink_internal sampleTwins 0 = some st1 ∧
      registry st1 = some (([0, 1] : List Nat).erase 0) ∧
      ([0, 1] : List Nat).erase 0 = ([0, 1] : List Nat).filter (fun q => decide (q ≠ 0)) ∧
      0 ∉ ([0, 1] : List Nat).erase 0 ∧
      (0 ∉ ([0, 1] : List Nat) → st1 = sampleTwins) ∧
      st1.halves = sampleTwins.halves ∧
      ∀ q, (deref st1.files q).map (fun e => (e.name, e.server, e.client)) =
           (deref sampleTwins.files q).map (fun e => (e.name, e.server, e.client)) :=
  unregister_removes_by_identity sampleTwins 0 [0, 1] (by decide)

end OfcFsPipe

/-! ## Transact -/

namespace OfcFsPipe

/-- One evaluation of the reply loop that finds a front record. -/
theorem transact_wait_front_eq (st : State) (hFile : Nat) (half : OFC_FS_PIPE_HALF)
    (d : OFC_FS_PIPE_DATA) (rest : List OFC_FS_PIPE_DATA) (cap : Nat)
    (hh : deref st.halves hFile = some half) (hq : half.hWaitQ = d :: rest) :
    OfcFSPipeTransactNamedPipe_wait st hFile cap =
      .ret (setQueue st hFile half rest)
        { ret := true, nRead := some (min cap d.len),
          bytes := d.buffer.take (min cap d.len), lastError := none } := by
  simp only [OfcFSPipeTransactNamedPipe_wait, hh, hq]

/-- One evaluation of the reply loop on an empty queue. -/
theorem transact_wait_empty_eq (st : State) (hFile : Nat) (half : OFC_FS_PIPE_HALF)
    (cap : Nat) (hh : deref st.halves hFile = some half) (hq : half.hWaitQ = []) :
    OfcFSPipeTransactNamedPipe_wait st hFile cap = .block st := by
  simp only [OfcFSPipeTransactNamedPipe_wait, hh, hq]

/-- The first step of a Transact with the sibling present: the request is
enqueued and the reply loop is entered. -/
theorem transact_send_eq (st : State) (hFile s : Nat) (half peer : OFC_FS_PIPE_HALF)
    (req : List Nat) (cap : Nat)
    (hh : ofc_handle_lock st hFile = some half) (hs : half.sibling = some s)
    (hp : deref st.halves s = some peer) :
    OfcFSPipeTransactNamedPipe st hFile req cap =
      OfcFSPipeTransactNamedPipe_wait
        (setQueue st s peer (peer.hWaitQ ++
          [{ len := req.length, offset := 0, buffer := req }])) hFile cap := by
  simp only [OfcFSPipeTransactNamedPipe, hh, hs, hp]

/-- C15: a Transact on a half whose sibling is present appends one record
holding the request (cursor 0, full length unread) to the tail of the
sibling's queue; with the local queue empty it then suspends; with a front
record `d` in the local queue, now or at a later evaluation of the reply
loop, it returns TRUE with count `min cap d.len` (at most `cap`), delivers
that many bytes of the record's buffer, and the local queue is left as the
records behind `d`: the reply record is removed whole. -/
theorem transact_round_trip (st : State) (hFile s : Nat) (half peer : OFC_FS_PIPE_HALF)
    (req : List Nat) (cap : Nat)
    (hh : ofc_handle_lock st hFile = some half) (hs : half.sibling = some s)
    (hne : s ≠ hFile) (hp : deref st.halves s = some peer) :
    deref (setQueue st s peer (peer.hWaitQ ++
        [{ len := req.length, offset := 0, buffer := req }])).halves s =
      some { peer with hWaitQ := peer.hWaitQ ++
        [{ len := req.length, offset := 0, buffer := req }] } ∧
    (half.hWaitQ = [] →
      OfcFSPipeTransactNamedPipe st hFile req cap =
        .block (setQueue st s peer (peer.hWaitQ ++
          [{ len := req.length, offset := 0, buffer := req }]))) ∧
    (∀ d rest, half.hWaitQ = d :: rest →
      OfcFSPipeTransactNamedPipe st hFile req cap =
        .ret (setQueue (setQueue st s peer (peer.hWaitQ ++
            [{ len := req.length, offset := 0, buffer := req }])) hFile half rest)
          { ret := true, nRead := some (min cap d.len),
            bytes := d.buffer.take (min cap d.len), lastError := none }) ∧
    (∀ (st2 : State) (half2 : OFC_FS_PIPE_HALF) d rest,
      deref st2.halves hFile = some half2 → half2.hWaitQ = d :: rest →
      OfcFSPipeTransactNamedPipe_wait st2 hFile cap =
        .ret (setQueue st2 hFile half2 rest)
          { ret := true, nRead := some (min cap d.len),
            bytes := d.buffer.take (min cap d.len), lastError := none } ∧
      deref (setQueue st2 hFile half2 rest).halves hFile =
        some { half2 with hWaitQ := rest } ∧
      min cap d.len ≤ cap ∧
      (d.len ≤ d.buffer.length → (d.buffer.take (min cap d.len)).length = min cap d.len)) := by
  have hself : deref (setQueue st s peer (peer.hWaitQ ++
      [{ len := req.length, offset := 0, buffer := req }])).halves hFile = some half := by
    simp only [setQueue]
    rw [deref_store_ne _ hne]; exact hh
  refine ⟨?_, ?_, ?_, ?_⟩
  · simp only [setQueue]
    exact deref_store_self hp
  · intro hq
    rw [transact_send_eq st hFile s half peer req cap hh hs hp]
    exact transact_wait_empty_eq _ hFile half cap hself hq
  · intro d rest hq
    rw [transact_send_eq st hFile s half peer req cap hh hs hp]
    exact transact_wait_front_eq _ hFile half d rest cap hself hq
  · intro st2 half2 d rest h2 hq
    refine ⟨transact_wait_front_eq st2 hFile half2 d rest cap h2 hq, ?_,
      Nat.min_le_left _ _, ?_⟩
    · simp only [setQueue]
      exact deref_store_self h2
    · intro hb
      rw [List.length_take]
      omega

/-- Scenario E of C15: the client (half 1) transacts "ping" and suspends with
the request in the server's queue; the server writes "pong"; the reply loop
taken again returns "pong" and leaves the client's queue empty. -/
theorem transact_round_trip_witness :
    OfcFSPipeTransactNamedPipe sampleConnected 1 [112, 105, 110, 103] 8 =
      .block samplePingSent ∧
    OfcFSPipeWriteFile samplePingSent 0 [112, 111, 110, 103] =
      .ret samplePongSent { ret := true, written := some 4, lastError := none } ∧
    OfcFSPipeTransactNamedPipe_wait samplePongSent 1 8 =
      .ret samplePingSent
        { ret := true, nRead := some 4, bytes := [112, 111, 110, 103], lastError := none } :=
  ⟨(transact_round_trip sampleConnected 1 0
      { hPipe := some 1, hWaitQ := [], pipe_file := some 0, sibling := some 0 }
      { hPipe := some 0, hWaitQ := [], pipe_file := some 0, sibling := some 1 }
      [112, 105, 110, 103] 8 rfl rfl (by decide) rfl).2.1 rfl,
   by decide,
   ((transact_round_trip sampleConnected 1 0
      { hPipe := some 1, hWaitQ := [], pipe_file := some 0, sibling := some 0 }
      { hPipe := some 0, hWaitQ := [], pipe_file := some 0, sibling := some 1 }
      [112, 105, 110, 103] 8 rfl rfl (by decide) rfl).2.2.2 samplePongSent
      { hPipe := some 1, hWaitQ := [samplePong], pipe_file := some 0, sibling := some 0 }
      samplePong [] rfl rfl).1⟩

/-- C14, the code at the failing input: the client (half 1) of
`sampleConnected` transacts "ping" and suspends; the server (half 0) closes,
which clears the client's sibling pointer; the reply loop taken again after
the wake suspends again on the unchanged state (its condition is only the
empty queue), while a Read in the same state returns `BROKEN_PIPE`. -/
theorem transact_wait_ignores_disconnect :
    OfcFSPipeTransactNamedPipe sampleConnected 1 [112, 105, 110, 103] 8 =
      .block samplePingSent ∧
    OfcFSPipeCloseHandle samplePingSent 0 = .ret samplePingOrphan true ∧
    (deref samplePingOrphan.halves 1).map (fun h => (h.hWaitQ, h.sibling)) =
      some ([], none) ∧
    OfcFSPipeTransactNamedPipe_wait samplePingOrphan 1 8 = .block samplePingOrphan ∧
    OfcFSPipeReadFile samplePingOrphan 1 8 =
      .ret samplePingOrphan
        { ret := false, nRead := none, bytes := [],
          lastError := some OFC_ERROR.BROKEN_PIPE } := by
  decide

/-- C20, the code at the failing input: on `samplePartRead` (the client's
front record "0123456789" has cursor 4 and 6 bytes unread after a Read of 4)
a Transact with reply capacity 6 delivers "012345", the bytes at buffer
positions 0..5, while a Read of 6 delivers the unread bytes "456789". -/
theorem transact_reply_ignores_cursor :
    run OfcFSPipeStartup
      [.create [1] .OFC_CREATE_NEW true true, .create [1] .OFC_OPEN_EXISTING true true,
       .write 0 [48, 49, 50, 51, 52, 53, 54, 55, 56, 57], .read 1 4] = some samplePartRead ∧
    (OfcFSPipeTransactNamedPipe samplePartRead 1 [1] 6).result =
      some { ret := true, nRead := some 6, bytes := [48, 49, 50, 51, 52, 53],
             lastError := none } ∧
    (OfcFSPipeReadFile samplePartRead 1 6).result =
      some { ret := true, nRead := some 6, bytes := [52, 53, 54, 55, 56, 57],
             lastError := none } := by
  decide

end OfcFsPipe

/-! ## Allocation failure and the stub operations -/

namespace OfcFsPipe

/-- C16, the code at the failing input: when the allocation of the entry
fails on the server path (either server disposition, any state, any name),
the create returns the null handle and the state as it was, and sets no last
error; when the allocation of the server half fails it returns the null
handle and the state as it was with `NOT_ENOUGH_MEMORY`. -/
theorem create_entry_alloc_failure_sets_no_error (st : State) (name : List Nat)
    (halfOk : Bool) :
    OfcFSPipeCreateFile st name .OFC_CREATE_NEW false halfOk =
      .ret st { ret := none, lastError := none } ∧
    OfcFSPipeCreateFile st name .OFC_CREATE_ALWAYS false halfOk =
      .ret st { ret := none, lastError := none } ∧
    OfcFSPipeCreateFile st name .OFC_CREATE_NEW true false =
      .ret st { ret := none, lastError := some OFC_ERROR.NOT_ENOUGH_MEMORY } ∧
    OfcFSPipeCreateFile st name .OFC_CREATE_ALWAYS true false =
      .ret st { ret := none, lastError := some OFC_ERROR.NOT_ENOUGH_MEMORY } := by
  refine ⟨?_, ?_, ?_, ?_⟩ <;> simp [OfcFSPipeCreateFile]

/-- C17, counterexample: the flush stub does not return its failure value; on
handle 0 it returns TRUE. -/
theorem flush_stub_returns_true :
    ¬ ((OfcFSPipeFlushFileBuffers 0).ret = false ∧
       (OfcFSPipeFlushFileBuffers 0).lastError = some OFC_ERROR.CALL_NOT_IMPLEMENTED) := by
  decide

/-- C17 as amended: for every argument, each of the twelve listed stubs sets
the last error to `CALL_NOT_IMPLEMENTED`; eleven of them return their failure
value (FALSE, or the null handle for find-first and overlapped-create), and
flush returns TRUE. -/
theorem stubs_call_not_implemented (name name2 info : List Nat)
    (h h2 attrs cls size n1 n2 : Nat) (bWait : Bool) :
    OfcFSPipeCreateDirectory name =
      { ret := false, lastError := some OFC_ERROR.CALL_NOT_IMPLEMENTED } ∧
    OfcFSPipeMoveFile name name2 =
      { ret := false, lastError := some OFC_ERROR.CALL_NOT_IMPLEMENTED } ∧
    OfcFSPipeSetFileAttributes name attrs =
      { ret := false, lastError := some OFC_ERROR.CALL_NOT_IMPLEMENTED } ∧
    OfcFSPipeSetFileInformationByHandle h cls info size =
      { ret := false, lastError := some OFC_ERROR.CALL_NOT_IMPLEMENTED } ∧
    OfcFSPipeFlushFileBuffers h =
      { ret := true, lastError := some OFC_ERROR.CALL_NOT_IMPLEMENTED } ∧
    OfcFSPipeFindFirstFile name =
      { ret := none, lastError := some OFC_ERROR.CALL_NOT_IMPLEMENTED } ∧
    OfcFSPipeFindNextFile h =
      { ret := false, lastError := some OFC_ERROR.CALL_NOT_IMPLEMENTED } ∧
    OfcFSPipeFindClose h =
      { ret := false, lastError := some OFC_ERROR.CALL_NOT_IMPLEMENTED } ∧
    OfcFSPipeGetDiskFreeSpace name =
      { ret := false, lastError := some OFC_ERROR.CALL_NOT_IMPLEMENTED } ∧
    OfcFSPipeGetVolumeInformation name n1 n2 =
      { ret := false, lastError := some OFC_ERROR.CALL_NOT_IMPLEMENTED } ∧
    OfcFSPipeCreateOverlapped =
      { ret := none, lastError := some OFC_ERROR.CALL_NOT_IMPLEMENTED } ∧
    OfcFSPipeGetOverlappedResult h h2 bWait =
      { ret := false, lastError := some OFC_ERROR.CALL_NOT_IMPLEMENTED } :=
  ⟨rfl, rfl, rfl, rfl, rfl, rfl, rfl, rfl, rfl, rfl, rfl, rfl⟩

end OfcFsPipe

/-! ## The record invariant -/

namespace OfcFsPipe

theorem mem_of_deref {α : Type} {heap : List (Option α)} {p : Nat} {v : α}
    (h : deref heap p = some v) : some v ∈ heap :=
  List.getElem?_mem (deref_eq_some.1 h)

theorem goodHeap_deref {hs : List (Option OFC_FS_PIPE_HALF)} (hg : GoodHeap hs)
    {p : Nat} {v : OFC_FS_PIPE_HALF} (h : deref hs p = some v) :
    ∀ d ∈ v.hWaitQ, GoodRecord d :=
  hg v (mem_of_deref h)

theorem goodHeap_store {hs : List (Option OFC_FS_PIPE_HALF)} (hg : GoodHeap hs)
    (p : Nat) {v : OFC_FS_PIPE_HALF} (hv : ∀ d ∈ v.hWaitQ, GoodRecord d) :
    GoodHeap (store hs p v) := by
  intro half hm
  rcases List.mem_or_eq_of_mem_set hm with h | h
  · exact hg half h
  · cases h; exact hv

theorem goodHeap_free {hs : List (Option OFC_FS_PIPE_HALF)} (hg : GoodHeap hs)
    (p : Nat) : GoodHeap (ofc_free hs p) := by
  intro half hm
  rcases List.mem_or_eq_of_mem_set hm with h | h
  · exact hg half h
  · cases h

theorem goodHeap_malloc {hs : List (Option OFC_FS_PIPE_HALF)} (hg : GoodHeap hs)
    {v : OFC_FS_PIPE_HALF} (hv : ∀ d ∈ v.hWaitQ, GoodRecord d) :
    GoodHeap (ofc_malloc hs v) := by
  intro half hm
  rcases List.mem_append.1 hm with h | h
  · exact hg half h
  · simp only [List.mem_singleton, Option.some.injEq] at h
    subst h; exact hv

theorem goodRecord_fresh (w : List Nat) :
    GoodRecord { len := w.length, offset := 0, buffer := w } := by
  simp [GoodRecord]

/-- The record a Read leaves behind satisfies the invariant. -/
theorem goodRecord_after_read {d : OFC_FS_PIPE_DATA} (hd : GoodRecord d) (n : Nat) :
    GoodRecord { d with len := d.len - min n d.len, offset := d.offset + min n d.len } := by
  unfold GoodRecord at *
  simp only
  omega

theorem recordInv_startup : RecordInv OfcFSPipeStartup := by
  intro half hm
  simp [OfcFSPipeStartup] at hm

theorem recordInv_write {st st1 : State} (hinv : RecordInv st) {hFile : Nat}
    {buf : List Nat} (h : (OfcFSPipeWriteFile st hFile buf).state = some st1) :
    RecordInv st1 := by
  unfold OfcFSPipeWriteFile at h
  split at h
  · cases h; exact hinv
  · split at h
    · split at h
      · cases h
      · next peer hp =>
        cases h
        refine goodHeap_store hinv _ ?_
        intro d hd
        rcases List.mem_append.1 hd with h1 | h1
        · exact goodHeap_deref hinv hp d h1
        · simp only [List.mem_singleton] at h1
          subst h1; exact goodRecord_fresh buf
    · cases h; exact hinv

theorem recordInv_read {st st1 : State} (hinv : RecordInv st) {hFile n : Nat}
    (h : (OfcFSPipeReadFile st hFile n).state = some st1) : RecordInv st1 := by
  unfold OfcFSPipeReadFile at h
  split at h
  · cases h; exact hinv
  · next half hh =>
    have hgood := goodHeap_deref hinv hh
    split at h
    · split at h <;> (cases h; exact hinv)
    · next data rest hq =>
      cases h
      refine goodHeap_store hinv _ ?_
      rw [hq] at hgood
      intro d hd
      simp only at hd
      split at hd
      · exact hgood d (List.mem_cons_of_mem _ hd)
      · rcases List.mem_cons.1 hd with h1 | h1
        · subst h1
          exact goodRecord_after_read (hgood data (List.mem_cons_self _ _)) n
        · exact hgood d (List.mem_cons_of_mem _ h1)

theorem recordInv_transactWake {st st1 : State} (hinv : RecordInv st) {hFile n : Nat}
    (h : (OfcFSPipeTransactNamedPipe_wait st hFile n).state = some st1) :
    RecordInv st1 := by
  unfold OfcFSPipeTransactNamedPipe_wait at h
  split at h
  · cases h
  · next half hh =>
    have hgood := goodHeap_deref hinv hh
    split at h
    · cases h; exact hinv
    · next data rest hq =>
      cases h
      refine goodHeap_store hinv _ ?_
      rw [hq] at hgood
      intro d hd
      exact hgood d (List.mem_cons_of_mem _ hd)

theorem recordInv_transact {st st1 : State} (hinv : RecordInv st) {hFile n : Nat}
    {buf : List Nat}
    (h : (OfcFSPipeTransactNamedPipe st hFile buf n).state = some st1) :
    RecordInv st1 := by
  unfold OfcFSPipeTransactNamedPipe at h
  split at h
  · cases h; exact hinv
  · split at h
    · split at h
      · cases h
      · next peer hp =>
        refine recordInv_transactWake ?_ h
        refine goodHeap_store hinv _ ?_
        intro d hd
        rcases List.mem_append.1 hd with h1 | h1
        · exact goodHeap_deref hinv hp d h1
        · simp only [List.mem_singleton] at h1
          subst h1; exact goodRecord_fresh buf
    · cases h; exact hinv

theorem pipe_unlink_internal_halves {st st1 : State} {pipe_file : Nat}
    (h : pipe_unlink_internal st pipe_file = some st1) : st1.halves = st.halves := by
  unfold pipe_unlink_internal at h
  simp only at h
  split at h
  · cases h
  · cases h; rfl
  · split at h
    · cases h
    · split at h
      · cases h
      · next st3 hst3 =>
        have h3 : st3.halves = st.halves := by
          split at hst3
          · cases hst3; rfl
          · split at hst3
            · cases hst3
            · cases hst3; rfl
        split at h
        · cases h; exact h3
        · cases h; exact h3

theorem recordInv_close {st st1 : State} (hinv : RecordInv st) {hFile : Nat}
    (h : (OfcFSPipeCloseHandle st hFile).state = some st1) : RecordInv st1 := by
  unfold OfcFSPipeCloseHandle at h
  split at h
  · cases h; exact hinv
  · next half hh =>
    have hg1 : GoodHeap (store st.halves hFile
        { half with hWaitQ := drain half.hWaitQ, hPipe := none }) := by
      refine goodHeap_store hinv _ ?_
      intro d hd
      simp only [drain_eq_nil] at hd
      cases hd
    simp only at h
    split at h
    · split at h
      · cases h
      · next peer hp =>
        cases h
        refine goodHeap_free (goodHeap_store hg1 _ ?_) _
        exact fun d hd => goodHeap_deref hg1 hp d hd
    · split at h
      · cases h
        exact goodHeap_free hg1 _
      · split at h
        · cases h
        · next st2 hun =>
          split at h
          · cases h
          · cases h
            have hh2 := pipe_unlink_internal_halves hun
            simp only at hh2
            show GoodHeap (ofc_free st2.halves hFile)
            rw [hh2]
            exact goodHeap_free hg1 _

theorem recordInv_create {st st1 : State} (hinv : RecordInv st) {name : List Nat}
    {disp : OFC_CREATE_DISPOSITION} {fileOk halfOk : Bool}
    (h : (OfcFSPipeCreateFile st name disp fileOk halfOk).state = some st1) :
    RecordInv st1 := by
  by_cases hd : disp = .OFC_CREATE_ALWAYS ∨ disp = .OFC_CREATE_NEW
  · simp only [OfcFSPipeCreateFile, hd, if_true] at h
    split at h
    · split at h
      · split at h
        · cases h
        · next st2 henq =>
          simp only [Step.state, Option.some.injEq] at h
          subst h
          have hh := (pipe_enqueue_internal_frame henq).1
          show GoodHeap st2.halves
          rw [hh]
          exact goodHeap_malloc hinv (fun d hd => by cases hd)
      · cases h; exact hinv
    · cases h; exact hinv
  · have hd1 : disp ≠ .OFC_CREATE_ALWAYS := fun e => hd (Or.inl e)
    have hd2 : disp ≠ .OFC_CREATE_NEW := fun e => hd (Or.inr e)
    rw [create_client_unfold st name disp fileOk halfOk hd1 hd2] at h
    split at h
    · cases h
    · cases h; exact hinv
    · split at h
      · split at h
        · cases h
        · split at h
          · cases h
          · split at h
            · cases h
            · next sv hsv =>
              cases h
              refine goodHeap_store (goodHeap_malloc hinv (fun d hd => by cases hd)) _
                (fun d hd => ?_)
              exact goodHeap_deref (goodHeap_malloc hinv (fun d hd => by cases hd)) hsv d hd
      · cases h; exact hinv

theorem recordInv_run {ops : List Op} : ∀ {st st1 : State}, RecordInv st →
    run st ops = some st1 → RecordInv st1 := by
  induction ops with
  | nil =>
    intro st st1 hinv h
    simp only [OfcFsPipe.run, Option.some.injEq] at h
    subst h; exact hinv
  | cons op ops ih =>
    intro st st1 hinv h
    simp only [OfcFsPipe.run] at h
    split at h
    · cases h
    · next st2 hop =>
      refine ih ?_ h
      cases op with
      | create n d a b => exact recordInv_create hinv hop
      | write hf b => exact recordInv_write hinv hop
      | read hf n => exact recordInv_read hinv hop
      | transact hf b n => exact recordInv_transact hinv hop
      | transactWake hf n => exact recordInv_transactWake hinv hop
      | close hf => exact recordInv_close hinv hop

end OfcFsPipe

namespace OfcFsPipe

/-- C18: in every state reached from startup, every record in the queue of
every live half has cursor plus unread length equal to the length of its
buffer (the payload as written) and a non-negative unread length; and a Read
that finds the front record `d` (satisfying the invariant) leaves the record
with the advanced cursor, which satisfies the invariant again, at the front
of the queue exactly when its unread length is still positive, and pops it
when that length is 0. -/
theorem record_invariant_reachable :
    (∀ st : State, Reachable st →
      ∀ h half, deref st.halves h = some half →
        ∀ d ∈ half.hWaitQ, d.offset + d.len = d.buffer.length ∧ 0 ≤ d.len) ∧
    (∀ (st : State) (hFile : Nat) (half : OFC_FS_PIPE_HALF) (d : OFC_FS_PIPE_DATA)
        (rest : List OFC_FS_PIPE_DATA) (n : Nat),
      ofc_handle_lock st hFile = some half → half.hWaitQ = d :: rest → GoodRecord d →
      ∃ st1 r half1, OfcFSPipeReadFile st hFile n = .ret st1 r ∧
        ofc_handle_lock st1 hFile = some half1 ∧
        GoodRecord { d with len := d.len - min n d.len,
                            offset := d.offset + min n d.len } ∧
        (half1.hWaitQ = { d with len := d.len - min n d.len,
                                 offset := d.offset + min n d.len } :: rest ↔
          0 < d.len - min n d.len) ∧
        (d.len - min n d.len = 0 → half1.hWaitQ = rest)) := by
  constructor
  · intro st hr h half hh d hd
    obtain ⟨ops, hrun⟩ := hr
    have hinv : RecordInv st := recordInv_run recordInv_startup hrun
    exact ⟨goodHeap_deref hinv hh d hd, Nat.zero_le _⟩
  · intro st hFile half d rest n hh hq hd
    have hlock : ofc_handle_lock (setQueue st hFile half
        (if d.len - min n d.len = 0 then rest
         else { d with len := d.len - min n d.len,
                       offset := d.offset + min n d.len } :: rest)) hFile =
        some { half with hWaitQ :=
          (if d.len - min n d.len = 0 then rest
           else { d with len := d.len - min n d.len,
                         offset := d.offset + min n d.len } :: rest) } := by
      simp only [ofc_handle_lock, setQueue]
      exact deref_store_self hh
    refine ⟨_, _, _, read_front_eq st hFile half d rest n hh hq, hlock,
      goodRecord_after_read hd n, ?_, ?_⟩
    · by_cases h0 : d.len - min n d.len = 0
      · simp only [h0, if_true, Nat.lt_irrefl, iff_false]
        intro hc
        have := congrArg List.length hc
        simp at this
      · simp only [h0, if_false, true_iff]
        omega
    · intro h0
      simp only [h0, if_true]

/-- The state `samplePartRead` is reached by create, connect, a Write of ten
bytes and a Read of four; its record (cursor 4, 6 unread, 10 in the buffer)
stays at the front after a Read of 2 and is popped by a Read of 6. -/
theorem record_invariant_reachable_witness :
    (∀ h half, deref samplePartRead.halves h = some half →
      ∀ d ∈ half.hWaitQ, d.offset + d.len = d.buffer.length ∧ 0 ≤ d.len) ∧
    (∃ st1 r half1, OfcFSPipeReadFile samplePartRead 1 2 = .ret st1 r ∧
      ofc_handle_lock st1 1 = some half1 ∧
      GoodRecord { len := 6 - min 2 6, offset := 4 + min 2 6,
                   buffer := [48, 49, 50, 51, 52, 53, 54, 55, 56, 57] } ∧
      (half1.hWaitQ = [{ len := 6 - min 2 6, offset := 4 + min 2 6,
                         buffer := [48, 49, 50, 51, 52, 53, 54, 55, 56, 57] }] ↔
        0 < 6 - min 2 6) ∧
      (6 - min 2 6 = 0 → half1.hWaitQ = [])) :=
  ⟨record_invariant_reachable.1 samplePartRead
      ⟨[.create [1] .OFC_CREATE_NEW true true, .create [1] .OFC_OPEN_EXISTING true true,
        .write 0 [48, 49, 50, 51, 52, 53, 54, 55, 56, 57], .read 1 4], by decide⟩,
   record_invariant_reachable.2 samplePartRead 1
      { hPipe := some 1, pipe_file := some 0, sibling := some 0,
        hWaitQ := [{ len := 6, offset := 4,
                     buffer := [48, 49, 50, 51, 52, 53, 54, 55, 56, 57] }] }
      { len := 6, offset := 4, buffer := [48, 49, 50, 51, 52, 53, 54, 55, 56, 57] }
      [] 2 rfl rfl rfl⟩

/-- C19, the code at the failing input: after `sampleTailClosedOps` and a
server create for `[3]` the registry collection is `[2]` while the connected
halves 0 and 1 of the dropped entry 0 are live; Shutdown returns with
`pipes.first` null, having closed half 4 of entry 2, and halves 0 and 1 are
still live, their handles valid and their sibling pointers set. -/
theorem shutdown_misses_dropped_entry :
    (run OfcFSPipeStartup
        (sampleTailClosedOps ++ [.create [3] .OFC_CREATE_NEW true true])).bind registry
      = some [2] ∧
    ((run OfcFSPipeStartup
        (sampleTailClosedOps ++ [.create [3] .OFC_CREATE_NEW true true])).bind
      OfcFSPipeShutdown).map
        (fun st => (st.pipes.first, deref st.halves 4, deref st.halves 0, deref st.halves 1))
      = some (none, none,
          some { hPipe := some 0, hWaitQ := [], pipe_file := some 0, sibling := some 1 },
          some { hPipe := some 1, hWaitQ := [], pipe_file := some 0, sibling := some 0 }) := by
  decide

end OfcFsPipe

/-! ## Well-formedness of the registry list -/

namespace OfcFsPipe

/-- C21, the code at the failing input: from the empty registry, enqueueing
entries 0 and 1 gives a well-formed list (first 0, last 1, chain `[0, 1]`);
unlinking the tail entry 1 then leaves `pipes.first` at entry 0 and
`pipes.last` null with the chain `[0]`, which is not well-formed.  The same
shape is reached through the provider calls of `sampleTailClosedOps`. -/
theorem unlink_tail_breaks_list_well_formedness :
    ListWellFormed sampleLoose ∧
    (runList sampleLoose [.enqueue 0, .enqueue 1]).map
        (fun st => (st.pipes, registry st, decide (ListWellFormed st))) =
      some ({ first := some 0, last := some 1 }, some [0, 1], true) ∧
    (runList sampleLoose [.enqueue 0, .enqueue 1, .unlink 1]).map
        (fun st => (st.pipes, registry st, decide (ListWellFormed st))) =
      some ({ first := some 0, last := none }, some [0], false) ∧
    (run OfcFSPipeStartup sampleTailClosedOps).map
        (fun st => (st.pipes, registry st, decide (ListWellFormed st))) =
      some ({ first := some 0, last := none }, some [0], false) := by
  decide

end OfcFsPipe
